import Mathlib

/-!
Verification development for the vical calendar editor.

This file gives a shallow embedding of the core of the program — the
entity model (`Subcalendar`, calendar items), the op/transaction log
(`src/vical/core/transaction.py`), the register store
(`src/vical/core/register.py`), the operator executor
(`src/vical/commands/operators.py`), motions
(`src/vical/commands/motions.py`) and the goto date parsing
(`src/vical/commands/utils.py`, `src/vical/commands/normal.py`) — and
proves properties of that embedding.

Modelling conventions:
* Python `date` values that only take part in day arithmetic are embedded
  as `Int` day ordinals (`date + timedelta(days = k)` is `+ k`); the goto
  parsing, which constructs calendar dates, uses an explicit
  year/month/day structure with Python's validity rules.
* Python objects are identified by their `uid`: where the source passes a
  live object reference (items, subcalendars) the embedding passes the
  uid and looks the object up in the editor state, and where an `Op`
  stores a reference to an object the embedding stores the object's value
  at record time (its attributes are not mutated while detached in any
  behaviour modelled here, and apply/revert overwrite `parent_subcal`
  before reading it).
* `list.sort(key=...)` is Python's stable sort; it is embedded as a
  stable insertion sort by the same key.
* Exceptions (`assert`, `raise`, `list.remove` `ValueError`, `NameError`)
  are embedded as an error result carrying the state at the raise point;
  each primitive Python statement either completes or raises without
  mutating, which the embedding mirrors.
-/

/-- Python `c1 < c2` on characters: code point comparison. -/
def charLt (a b : Char) : Bool := a.toNat < b.toNat

/-- Python `<=` on strings as lists of code points (lexicographic: the
first differing position decides; a proper head is below). -/
def charListLe : List Char → List Char → Bool
  | [], _ => true
  | _ :: _, [] => false
  | a :: as, b :: bs =>
    if charLt a b then true
    else if charLt b a then false
    else charListLe as bs

/-- Python `str.lower()` restricted to its ASCII behaviour, on the
character list of a string. -/
def lowerData (s : String) : List Char := s.data.map Char.toLower

/-- Executable pairwise check (`List.Pairwise` as a Bool program). -/
def pairwiseB (p : α → α → Bool) : List α → Bool
  | [] => true
  | x :: xs => xs.all (p x) && pairwiseB p xs

/-- Stable insertion of `x` into `l`: `x` is placed before the first
element it is `le`-below-or-equal-to.  Together with `pySort` this is a
stable sort, agreeing with Python's `list.sort`. -/
def insSorted (le : α → α → Bool) (x : α) : List α → List α
  | [] => [x]
  | y :: ys => if le x y then x :: y :: ys else y :: insSorted le x ys

/-- Model of Python's stable `list.sort(key=...)` (via its comparison). -/
def pySort (le : α → α → Bool) : List α → List α
  | [] => []
  | x :: xs => insSorted le x (pySort le xs)

/-! ## Entity model (`src/vical/core/subcalendar.py`) -/

/-- The two calendar item variants (`Task.TYPE` / `Event.TYPE`). -/
inductive ItemKind where
  | task
  | event
deriving DecidableEq, Repr

/-- A calendar item.  `Task` and `Event` are flattened into one structure
tagged by `kind`; the fields of the other variant are unused junk.  Task
`date` and event `start_date`/`end_date` are embedded as always-present
day ordinals (as produced by `calendar_item_from_dict` and by item
creation in the command layer). -/
structure Item where
  uid : String
  kind : ItemKind
  name : String
  desc : String
  remind : Int
  parent_subcal : Option String
  date : Int
  deadline : Option Int
  completed : Bool
  start_date : Int
  end_date : Int
deriving DecidableEq, Repr

/-- `CalendarItem.sort_date`: task date, or event start date. -/
def Item.sort_date (i : Item) : Int :=
  match i.kind with
  | .task => i.date
  | .event => i.start_date

/-- The type rank in `sort_key`: `Event` 0, `Task` 1. -/
def typeRank : ItemKind → Nat
  | .task => 1
  | .event => 0

/-- `sort_key()`: `(sort_date, type_rank, name.lower())`. -/
def Item.sort_key (i : Item) : Int × Nat × List Char :=
  (i.sort_date, typeRank i.kind, lowerData i.name)

/-- Python tuple `<=` on sort keys (lexicographic). -/
def keyLe (a b : Int × Nat × List Char) : Bool :=
  a.1 < b.1 || (a.1 = b.1 && (a.2.1 < b.2.1 || (a.2.1 = b.2.1 && charListLe a.2.2 b.2.2)))

/-- Item comparison used by every `items.sort(key=lambda i: i.sort_key())`. -/
def itemLe (a b : Item) : Bool := keyLe a.sort_key b.sort_key

/-- A subcalendar: uid, name, color, hidden flag and its items list. -/
structure Subcalendar where
  uid : String
  name : String
  color : String
  hidden : Bool
  items : List Item
deriving DecidableEq, Repr

/-- The entity model: `editor.subcalendars`. -/
abbrev Model := List Subcalendar

/-- `editor.get_item_by_uid`: scan subcalendars in order, then items. -/
def get_item_by_uid : Model → String → Option Item
  | [], _ => none
  | sc :: rest, uid =>
    match sc.items.find? (fun it => it.uid = uid) with
    | some it => some it
    | none => get_item_by_uid rest uid

/-- `editor.get_subcal_by_uid` (the uid→subcalendar map, which mirrors
the `subcalendars` list). -/
def get_subcal_by_uid (m : Model) (uid : String) : Option Subcalendar :=
  m.find? (fun sc => sc.uid = uid)

/-- Mutation of the item object with a given uid (Python mutates the
object in place; the embedding rewrites it wherever it is stored). -/
def replaceItem (m : Model) (uid : String) (newIt : Item) : Model :=
  m.map (fun sc => { sc with items := sc.items.map (fun it => if it.uid = uid then newIt else it) })

/-- Mutation of the items list of the subcalendar object with a given uid. -/
def updateSubcalItems (m : Model) (scUid : String) (f : List Item → List Item) : Model :=
  m.map (fun sc => if sc.uid = scUid then { sc with items := f sc.items } else sc)

/-- `sc.items.sort(key=lambda i: i.sort_key())`. -/
def sortItems (l : List Item) : List Item := pySort itemLe l

/-- Python `list.remove(item)` on an items list: drop the first element
that is the given object (object identity is its uid). -/
def eraseItemUid (l : List Item) (uid : String) : List Item :=
  l.eraseP (fun it => it.uid = uid)

/-! ## Register store (`src/vical/core/register.py`) -/

/-- `RegisterPayload`: immutable snapshot of an item.  The `kind` tag and
the keys of the `data` dict are fused into one constructor per kind. -/
inductive RegisterPayload where
  | task (name : String) (completed : Bool) (deadline : Option Int) (original_subcal_uid : Option String)
  | event (name : String) (start_date end_date : Int) (original_subcal_uid : Option String)
deriving DecidableEq, Repr

/-- `calitem_to_register`: convert an item into a payload snapshot. -/
def calitem_to_register (item : Item) : RegisterPayload :=
  match item.kind with
  | .task => .task item.name item.completed item.deadline item.parent_subcal
  | .event => .event item.name item.start_date item.end_date item.parent_subcal

/-- The register dictionary `Register._regs`, as an association list over
its fixed key set. -/
abbrev RegisterFile := List (String × List RegisterPayload)

/-- The initial register dictionary: `"`, `0`, `-`, `1`–`9`, `a`–`z`. -/
def emptyRegisters : RegisterFile :=
  [("\"", []), ("0", []), ("-", [])]
    ++ (["1", "2", "3", "4", "5", "6", "7", "8", "9"].map (fun k => (k, [])))
    ++ (["a", "b", "c", "d", "e", "f", "g", "h", "i", "j", "k", "l", "m",
         "n", "o", "p", "q", "r", "s", "t", "u", "v", "w", "x", "y", "z"].map (fun k => (k, [])))

/-- `self._regs.get(regname, [])`. -/
def regGet (rf : RegisterFile) (k : String) : List RegisterPayload :=
  match rf.find? (fun kv => kv.1 = k) with
  | some kv => kv.2
  | none => []

/-- `self._regs[k] = v` for an existing key (the only writes performed;
dictionary keys are unique, so updating the first match is the update). -/
def regSet : RegisterFile → String → List RegisterPayload → RegisterFile
  | [], _, _ => []
  | kv :: rest, k, v => if kv.1 = k then (kv.1, v) :: rest else kv :: regSet rest k v

/-- `k in self._regs`. -/
def regHasKey (rf : RegisterFile) (k : String) : Bool :=
  (rf.find? (fun kv => kv.1 = k)).isSome

/-- `Register._normalize_regname`: an upper-case (single-letter) register
name selects the lower-case register in append mode. -/
def normalize_regname (regname : String) : String × Bool :=
  match regname.data with
  | [c] => if 'A' ≤ c && c ≤ 'Z' then (⟨[c.toLower]⟩, true) else (regname, false)
  | _ => (regname, false)

/-- The numbered-register rotation in `Register.write` (`9←8 … 2←1`),
written as the loop executes: downward, each read seeing the state after
the higher registers were already shifted. -/
def rotateNumbered (rf : RegisterFile) : RegisterFile :=
  let r9 := regSet rf "9" (regGet rf "8")
  let r8 := regSet r9 "8" (regGet r9 "7")
  let r7 := regSet r8 "7" (regGet r8 "6")
  let r6 := regSet r7 "6" (regGet r7 "5")
  let r5 := regSet r6 "5" (regGet r6 "4")
  let r4 := regSet r5 "4" (regGet r5 "3")
  let r3 := regSet r4 "3" (regGet r4 "2")
  regSet r3 "2" (regGet r3 "1")

/-- `Register.write` stage: always update the unnamed register. -/
def writeUnnamed (rf : RegisterFile) (payloads : List RegisterPayload) : RegisterFile :=
  regSet rf "\"" payloads

/-- `Register.write` stage: a yank also updates register `0`. -/
def writeYank (rf : RegisterFile) (payloads : List RegisterPayload) (rotate : Bool) : RegisterFile :=
  if !rotate then regSet rf "0" payloads else rf

/-- `Register.write` stage: a delete rotates the numbered registers and
puts the new payloads into register `1`. -/
def writeRotate (rf : RegisterFile) (payloads : List RegisterPayload) (rotate : Bool) : RegisterFile :=
  if rotate then regSet (rotateNumbered rf) "1" payloads else rf

/-- `Register.write` stage: handle the (normalized) named register —
append for an upper-case name, overwrite otherwise. -/
def writeNamed (rf : RegisterFile) (norm : String × Bool) (payloads : List RegisterPayload) : RegisterFile :=
  if regHasKey rf norm.1 then
    if norm.2 then regSet rf norm.1 (regGet rf norm.1 ++ payloads)
    else regSet rf norm.1 payloads
  else rf

/-- `Register.write(regname, items, rotate)` (items already a list). -/
def Register_write (rf : RegisterFile) (regname : String) (items : List Item) (rotate : Bool) : RegisterFile :=
  if regname = "_" then rf
  else
    let norm := normalize_regname regname
    let payloads := items.map calitem_to_register
    writeNamed (writeRotate (writeYank (writeUnnamed rf payloads) payloads rotate) payloads rotate)
      norm payloads

/-! ## Ops (`src/vical/core/transaction.py`) -/

/-- Names of item attributes written through `tx_set_item_attr`. -/
inductive AttrName where
  | name
  | desc
  | remind
  | date
  | deadline
  | completed
  | start_date
  | end_date
deriving DecidableEq, Repr

/-- Dynamic attribute values (`getattr`/`setattr` payloads). -/
inductive AttrVal where
  | str (s : String)
  | int (n : Int)
  | optInt (n : Option Int)
  | bool (b : Bool)
deriving DecidableEq, Repr

/-- `getattr(item, attr)`. -/
def getAttr (i : Item) : AttrName → AttrVal
  | .name => .str i.name
  | .desc => .str i.desc
  | .remind => .int i.remind
  | .date => .int i.date
  | .deadline => .optInt i.deadline
  | .completed => .bool i.completed
  | .start_date => .int i.start_date
  | .end_date => .int i.end_date

/-- `setattr(item, attr, v)`.  Every call site in the source writes a
value of the attribute's own type; a mismatched constructor is ruled out
(`none`). -/
def setAttr (i : Item) : AttrName → AttrVal → Option Item
  | .name, .str s => some { i with name := s }
  | .desc, .str s => some { i with desc := s }
  | .remind, .int n => some { i with remind := n }
  | .date, .int n => some { i with date := n }
  | .deadline, .optInt n => some { i with deadline := n }
  | .completed, .bool b => some { i with completed := b }
  | .start_date, .int n => some { i with start_date := n }
  | .end_date, .int n => some { i with end_date := n }
  | _, _ => none

/-- Names of subcalendar attributes written through `tx_set_subcal_attr`. -/
inductive SubcalAttrName where
  | name
  | color
  | hidden
deriving DecidableEq, Repr

/-- `getattr(subcal, attr)`. -/
def getSubcalAttr (sc : Subcalendar) : SubcalAttrName → AttrVal
  | .name => .str sc.name
  | .color => .str sc.color
  | .hidden => .bool sc.hidden

/-- `setattr(subcal, attr, v)` (type-preserving, as at every call site). -/
def setSubcalAttr (sc : Subcalendar) : SubcalAttrName → AttrVal → Option Subcalendar
  | .name, .str s => some { sc with name := s }
  | .color, .str s => some { sc with color := s }
  | .hidden, .bool b => some { sc with hidden := b }
  | _, _ => none

/-- The Op variants of `src/vical/core/transaction.py`.  Where the source
stores an object reference the op stores the object's value at record
time together with its uid. -/
inductive Op where
  | setItemAttr (item_uid : String) (attr : AttrName) (old new : AttrVal)
  | insertItem (subcal_uid : String) (item : Item)
  | removeItem (subcal_uid : String) (item : Item)
  | moveItem (item_uid src_uid dst_uid : String)
  | setSubcalAttr (subcal_uid : String) (attr : SubcalAttrName) (old new : AttrVal)
  | insertSubcal (index : Nat) (subcal : Subcalendar)
  | removeSubcal (index : Nat) (subcal : Subcalendar)
deriving DecidableEq, Repr

/-- Python `list.insert(i, x)`: insert at `i`, clamping to the length. -/
def pyInsert (i : Nat) (x : α) : List α → List α
  | [] => [x]
  | y :: ys =>
    match i with
    | 0 => x :: y :: ys
    | n + 1 => y :: pyInsert n x ys

/-- Shared body of `OpSetItemAttr.apply`/`.revert` (and the mutating part
of `tx_set_item_attr`): look the item up by uid and set the attribute.
`none` is the failed `assert item is not None` (or a mismatched write). -/
def setItemAttrModel (uid : String) (attr : AttrName) (v : AttrVal) (m : Model) : Option Model :=
  match get_item_by_uid m uid with
  | none => none
  | some it =>
    match setAttr it attr v with
    | none => none
    | some it' => some (replaceItem m uid it')

/-- Shared body of `OpInsertItem.apply` / `OpRemoveItem.revert` (and of
`tx_insert_item`): attach the item to the subcalendar, append, sort.
`none` is the failed `assert sc is not None`. -/
def insertItemModel (scUid : String) (item : Item) (m : Model) : Option Model :=
  match get_subcal_by_uid m scUid with
  | none => none
  | some _ =>
    some (updateSubcalItems m scUid
      (fun l => sortItems (l ++ [{ item with parent_subcal := some scUid }])))

/-- Shared body of `OpRemoveItem.apply` / `OpInsertItem.revert` (and of
`tx_remove_item`): remove the item object from the subcalendar's list,
detach it, sort.  `none` is a failed `assert` or the `ValueError` of
`list.remove` when the object is absent. -/
def removeItemModel (scUid : String) (uid : String) (m : Model) : Option Model :=
  match get_subcal_by_uid m scUid with
  | none => none
  | some sc =>
    if sc.items.any (fun it => it.uid = uid) then
      some (updateSubcalItems m scUid (fun l => sortItems (eraseItemUid l uid)))
    else none

/-- Shared body of `OpMoveItem.apply` (and of `tx_move_item`); `.revert`
is the same with source and destination swapped. -/
def moveItemModel (uid srcUid dstUid : String) (m : Model) : Option Model :=
  match get_item_by_uid m uid, get_subcal_by_uid m srcUid, get_subcal_by_uid m dstUid with
  | some item, some src, some _ =>
    if src.items.any (fun it => it.uid = uid) then
      let m1 := updateSubcalItems m srcUid (fun l => sortItems (eraseItemUid l uid))
      some (updateSubcalItems m1 dstUid
        (fun l => sortItems (l ++ [{ item with parent_subcal := some dstUid }])))
    else none
  | _, _, _ => none

/-- Shared body of `OpSetSubcalAttr.apply`/`.revert`. -/
def setSubcalAttrModel (uid : String) (attr : SubcalAttrName) (v : AttrVal) (m : Model) : Option Model :=
  match get_subcal_by_uid m uid with
  | none => none
  | some sc =>
    match setSubcalAttr sc attr v with
    | none => none
    | some sc' => some (m.map (fun s => if s.uid = uid then sc' else s))

/-- `editor.subcalendars.remove(subcal)`: drop the first occurrence of
the object (by uid); `none` is the `ValueError` when absent. -/
def removeSubcalValue (uid : String) (m : Model) : Option Model :=
  if m.any (fun sc => sc.uid = uid) then some (m.eraseP (fun sc => sc.uid = uid)) else none

/-- `Op.apply(editor)`, on the entity model. -/
def Op.apply : Op → Model → Option Model
  | .setItemAttr uid attr _ new, m => setItemAttrModel uid attr new m
  | .insertItem scUid item, m => insertItemModel scUid item m
  | .removeItem scUid item, m => removeItemModel scUid item.uid m
  | .moveItem uid src dst, m => moveItemModel uid src dst m
  | .setSubcalAttr uid attr _ new, m => setSubcalAttrModel uid attr new m
  | .insertSubcal idx sc, m => some (pyInsert idx sc m)
  | .removeSubcal _ sc, m => removeSubcalValue sc.uid m

/-- `Op.revert(editor)`, on the entity model. -/
def Op.revert : Op → Model → Option Model
  | .setItemAttr uid attr old _, m => setItemAttrModel uid attr old m
  | .insertItem scUid item, m => removeItemModel scUid item.uid m
  | .removeItem scUid item, m => insertItemModel scUid item m
  | .moveItem uid src dst, m => moveItemModel uid dst src m
  | .setSubcalAttr uid attr old _, m => setSubcalAttrModel uid attr old m
  | .insertSubcal _ sc, m => removeSubcalValue sc.uid m
  | .removeSubcal idx sc, m => some (pyInsert idx sc m)

/-! ## Transactions and history (`src/vical/core/transaction.py`,
`src/vical/core/editor.py`, `src/vical/settings.py`) -/

/-- A transaction: ordered op list plus label (the global monotonic id
plays no role in any behaviour modelled here and is omitted). -/
structure Transaction where
  label : String
  ops : List Op
deriving DecidableEq, Repr

/-- `editor.history`: undo stack, redo stack, active transaction. -/
structure History where
  undo_stack : List Transaction
  redo_stack : List Transaction
  current_tx : Option Transaction
deriving DecidableEq, Repr

/-- The editor state the transaction layer sees: the entity model, the
history, the registers, and `settings.max_history`. -/
structure Editor where
  subcalendars : Model
  history : History
  registers : RegisterFile
  max_history : Nat
deriving DecidableEq, Repr

/-- Result of running a mutating Python function: a normal return, or a
propagating exception; both carry the editor state at that point. -/
inductive PyRes where
  | ok (e : Editor)
  | exn (msg : String) (e : Editor)
deriving DecidableEq, Repr

/-- `begin_transaction(editor, label)`. -/
def begin_transaction (e : Editor) (label : String) : PyRes :=
  match e.history.current_tx with
  | some _ => .exn "Nested transactions are not allowed" e
  | none => .ok { e with history := { e.history with current_tx := some ⟨label, []⟩ } }

/-- `record(editor, op)`. -/
def record (e : Editor) (op : Op) : PyRes :=
  match e.history.current_tx with
  | none => .exn "record() called outside of transaction" e
  | some tx => .ok { e with history := { e.history with current_tx := some ⟨tx.label, tx.ops ++ [op]⟩ } }

/-- `commit_transaction(editor)`. -/
def commit_transaction (e : Editor) : Editor :=
  match e.history.current_tx with
  | none => e
  | some tx =>
    if tx.ops = [] then { e with history := { e.history with current_tx := none } }
    else
      let pushed := e.history.undo_stack ++ [tx]
      let bounded := if e.max_history < pushed.length then pushed.drop 1 else pushed
      { e with history := { undo_stack := bounded, redo_stack := [], current_tx := none } }

/-- `rollback_transaction(editor)`. -/
def rollback_transaction (e : Editor) : Editor :=
  { e with history := { e.history with current_tx := none } }

/-- `transaction_block(editor, label)` as a combinator over the body: on
an exception in the body, roll back and re-raise; else commit. -/
def transaction_block (label : String) (body : Editor → PyRes) (e : Editor) : PyRes :=
  match begin_transaction e label with
  | .exn msg s => .exn msg s
  | .ok e1 =>
    match body e1 with
    | .exn msg s => .exn msg (rollback_transaction s)
    | .ok e2 => .ok (commit_transaction e2)

/-- `tx_set_item_attr(editor, item, attr, new)`.  The live `item`
argument is passed as its uid and looked up in the model (`none` models a
caller holding a detached object, which does not occur). -/
def tx_set_item_attr (e : Editor) (uid : String) (attr : AttrName) (new : AttrVal) : PyRes :=
  match get_item_by_uid e.subcalendars uid with
  | none => .exn "item not reachable" e
  | some item =>
    let old := getAttr item attr
    if old = new then .ok e
    else
      match record e (.setItemAttr uid attr old new) with
      | .exn msg s => .exn msg s
      | .ok e1 =>
        match setItemAttrModel uid attr new e1.subcalendars with
        | none => .exn "setattr failed" e1
        | some m' => .ok { e1 with subcalendars := m' }

/-- `tx_insert_item(editor, subcal, item)`. -/
def tx_insert_item (e : Editor) (scUid : String) (item : Item) : PyRes :=
  if item.parent_subcal ≠ none then .exn "AssertionError" e
  else
    match get_subcal_by_uid e.subcalendars scUid with
    | none => .exn "subcalendar not reachable" e
    | some _ =>
      match record e (.insertItem scUid item) with
      | .exn msg s => .exn msg s
      | .ok e1 =>
        match insertItemModel scUid item e1.subcalendars with
        | none => .exn "insert failed" e1
        | some m' => .ok { e1 with subcalendars := m' }

/-- `tx_remove_item(editor, item)`. -/
def tx_remove_item (e : Editor) (uid : String) : PyRes :=
  match get_item_by_uid e.subcalendars uid with
  | none => .exn "item not reachable" e
  | some item =>
    match item.parent_subcal with
    | none => .exn "AssertionError" e
    | some scUid =>
      match record e (.removeItem scUid item) with
      | .exn msg s => .exn msg s
      | .ok e1 =>
        match removeItemModel scUid uid e1.subcalendars with
        | none => .exn "ValueError" e1
        | some m' => .ok { e1 with subcalendars := m' }

/-- `tx_move_item(editor, item, dst_subcal)`. -/
def tx_move_item (e : Editor) (uid : String) (dstUid : String) : PyRes :=
  match get_item_by_uid e.subcalendars uid with
  | none => .exn "item not reachable" e
  | some item =>
    match item.parent_subcal with
    | none => .exn "AssertionError" e
    | some srcUid =>
      if srcUid = dstUid then .exn "AssertionError" e
      else
        match get_subcal_by_uid e.subcalendars dstUid with
        | none => .exn "subcalendar not reachable" e
        | some _ =>
          match record e (.moveItem uid srcUid dstUid) with
          | .exn msg s => .exn msg s
          | .ok e1 =>
            match moveItemModel uid srcUid dstUid e1.subcalendars with
            | none => .exn "ValueError" e1
            | some m' => .ok { e1 with subcalendars := m' }

/-- `tx_set_subcal_attr(editor, subcal, attr, new)`. -/
def tx_set_subcal_attr (e : Editor) (uid : String) (attr : SubcalAttrName) (new : AttrVal) : PyRes :=
  match get_subcal_by_uid e.subcalendars uid with
  | none => .exn "subcalendar not reachable" e
  | some sc =>
    let old := getSubcalAttr sc attr
    if old = new then .ok e
    else
      match record e (.setSubcalAttr uid attr old new) with
      | .exn msg s => .exn msg s
      | .ok e1 =>
        match setSubcalAttrModel uid attr new e1.subcalendars with
        | none => .exn "setattr failed" e1
        | some m' => .ok { e1 with subcalendars := m' }

/-- `tx_insert_subcal(editor, subcal)`.  The `assert subcal not in
editor.subcalendars` object-identity check is embedded as uid freshness
(the only way a value-level model can state that the object is new). -/
def tx_insert_subcal (e : Editor) (sc : Subcalendar) : PyRes :=
  if e.subcalendars.any (fun s => s.uid = sc.uid) then .exn "AssertionError" e
  else
    match record e (.insertSubcal e.subcalendars.length sc) with
    | .exn msg s => .exn msg s
    | .ok e1 => .ok { e1 with subcalendars := e1.subcalendars ++ [sc] }

/-- `tx_remove_subcal(editor, subcal)`. -/
def tx_remove_subcal (e : Editor) (uid : String) : PyRes :=
  match get_subcal_by_uid e.subcalendars uid with
  | none => .exn "AssertionError" e
  | some sc =>
    let idx := e.subcalendars.findIdx (fun s => s.uid = uid)
    match record e (.removeSubcal idx sc) with
    | .exn msg s => .exn msg s
    | .ok e1 =>
      match removeSubcalValue uid e1.subcalendars with
      | none => .exn "ValueError" e1
      | some m' => .ok { e1 with subcalendars := m' }

/-- Run a list of ops in order (`Transaction.apply` runs `op.apply` in
forward order; `Transaction.revert` runs `op.revert` over the reversed
list).  An op that raises propagates the state at the raise. -/
def runOpList (step : Op → Model → Option Model) : List Op → Model → Except Model Model
  | [], m => .ok m
  | op :: ops, m =>
    match step op m with
    | none => .error m
    | some m' => runOpList step ops m'

/-- `Transaction.apply(editor)` on the entity model. -/
def Transaction.applyModel (tx : Transaction) (m : Model) : Except Model Model :=
  runOpList Op.apply tx.ops m

/-- `Transaction.revert(editor)` on the entity model. -/
def Transaction.revertModel (tx : Transaction) (m : Model) : Except Model Model :=
  runOpList Op.revert tx.ops.reverse m

/-- `tx_undo(editor)`: pop, revert in reverse order, push onto redo.
An empty undo stack returns `False` and changes nothing. -/
def tx_undo (e : Editor) : PyRes :=
  match e.history.undo_stack.getLast? with
  | none => .ok e
  | some tx =>
    let rest := e.history.undo_stack.dropLast
    match tx.revertModel e.subcalendars with
    | .error m =>
      .exn "exception during revert"
        { e with subcalendars := m, history := { e.history with undo_stack := rest } }
    | .ok m =>
      .ok { e with subcalendars := m, history := ⟨rest, e.history.redo_stack ++ [tx], e.history.current_tx⟩ }

/-- `tx_redo(editor)`: pop from redo, apply in forward order, push back. -/
def tx_redo (e : Editor) : PyRes :=
  match e.history.redo_stack.getLast? with
  | none => .ok e
  | some tx =>
    let rest := e.history.redo_stack.dropLast
    match tx.applyModel e.subcalendars with
    | .error m =>
      .exn "exception during apply"
        { e with subcalendars := m, history := { e.history with redo_stack := rest } }
    | .ok m =>
      .ok { e with subcalendars := m, history := ⟨e.history.undo_stack ++ [tx], rest, e.history.current_tx⟩ }

/-! ## Transaction-building call sequences -/

/-- One call into the mutating transaction layer, as issued by the
operator/command layer while a transaction is active. -/
inductive TxCall where
  | setItemAttr (uid : String) (attr : AttrName) (new : AttrVal)
  | insertItem (scUid : String) (item : Item)
  | removeItem (uid : String)
  | moveItem (uid : String) (dstUid : String)
  | setSubcalAttr (uid : String) (attr : SubcalAttrName) (new : AttrVal)
  | insertSubcal (sc : Subcalendar)
  | removeSubcal (uid : String)
deriving DecidableEq, Repr

/-- Dispatch one `TxCall` to its `tx_*` function. -/
def runTxCall : TxCall → Editor → PyRes
  | .setItemAttr uid attr new, e => tx_set_item_attr e uid attr new
  | .insertItem scUid item, e => tx_insert_item e scUid item
  | .removeItem uid, e => tx_remove_item e uid
  | .moveItem uid dstUid, e => tx_move_item e uid dstUid
  | .setSubcalAttr uid attr new, e => tx_set_subcal_attr e uid attr new
  | .insertSubcal sc, e => tx_insert_subcal e sc
  | .removeSubcal uid, e => tx_remove_subcal e uid

/-- Run a sequence of transaction-layer calls; an exception propagates
with the state at the raise. -/
def runTxCalls : List TxCall → Editor → PyRes
  | [], e => .ok e
  | c :: cs, e =>
    match runTxCall c e with
    | .exn msg s => .exn msg s
    | .ok e' => runTxCalls cs e'

/-- Uids of all items in the model, in scan order. -/
def itemUids (m : Model) : List String :=
  m.flatMap (fun sc => sc.items.map Item.uid)

/-- Well-formedness of an entity-model state: subcalendar uids are
distinct, item uids are distinct, every item's `parent_subcal` points at
the subcalendar that holds it, every items list is sorted by `sort_key`,
and within each subcalendar no two items share a sort key. -/
def wfModel (m : Model) : Bool :=
  pairwiseB (fun a b => a.uid ≠ b.uid) m
  && pairwiseB (fun a b => a ≠ b) (itemUids m)
  && m.all (fun sc => sc.items.all (fun it => it.parent_subcal = some sc.uid))
  && m.all (fun sc => pairwiseB itemLe sc.items)
  && m.all (fun sc => pairwiseB (fun a b => a.sort_key ≠ b.sort_key) sc.items)

/-- Run a call sequence, requiring the entity model to be well formed
before every step and after the last one.  This is the "good run"
premise of the undo/redo round trip. -/
def goodRun : List TxCall → Editor → Option Editor
  | [], e => if wfModel e.subcalendars then some e else none
  | c :: cs, e =>
    if wfModel e.subcalendars then
      match runTxCall c e with
      | .ok e' => goodRun cs e'
      | .exn _ _ => none
    else none

/-! ## Operator executor (`src/vical/commands/operators.py`) -/

/-- `OpArgs`: operator key, target items (as uids of live items), the
selected register name, and the prompt text. -/
structure OpArgs where
  op_key : Char
  target_items : List String
  regname : String
  text : String
deriving DecidableEq, Repr

/-- `Operators.op_delete`: write the register with rotation, then remove
every target inside one transaction block. -/
def op_delete (args : OpArgs) (e : Editor) : PyRes :=
  let e0 :=
    if args.target_items ≠ [] then
      let items := args.target_items.filterMap (get_item_by_uid e.subcalendars)
      { e with registers := Register_write e.registers args.regname items true }
    else e
  transaction_block "delete" (fun ed => runTxCalls (args.target_items.map .removeItem) ed) e0

/-- `Operators.op_yank`: write the register without rotation; no mutation. -/
def op_yank (args : OpArgs) (e : Editor) : PyRes :=
  if args.target_items ≠ [] then
    let items := args.target_items.filterMap (get_item_by_uid e.subcalendars)
    .ok { e with registers := Register_write e.registers args.regname items false }
  else .ok e

/-- `Operators.op_change`: set every target's name to the prompt text. -/
def op_change (args : OpArgs) (e : Editor) : PyRes :=
  if args.target_items = [] || args.text = "" then .ok e
  else runTxCalls (args.target_items.map (fun u => .setItemAttr u .name (.str args.text))) e

/-- `Operators.op_complete` as written in the source: the filter
`[t for t in opargs.target_items if ifinstance(t, Task)]` evaluates the
undefined name `ifinstance` for each element, so any non-empty target
list raises `NameError` before a toggle value is ever computed; an empty
target list builds `[]` and returns at `if not tasks`. -/
def op_complete (args : OpArgs) (e : Editor) : PyRes :=
  match args.target_items with
  | [] => .ok e
  | _ :: _ => .exn "NameError: name 'ifinstance' is not defined" e

/-- The intended `op_complete`, with `isinstance` in place of the
undefined `ifinstance` (per the operator's docstring and the spec):
collect the Task targets, compute `not all(t.completed for t in tasks)`,
and set every task's `completed` to that single value. -/
def op_complete_intended (args : OpArgs) (e : Editor) : PyRes :=
  let targets := args.target_items.filterMap (get_item_by_uid e.subcalendars)
  let tasks := targets.filter (fun t => t.kind = .task)
  if tasks = [] then .ok e
  else
    let toggle := !(tasks.all (fun t => t.completed))
    runTxCalls (tasks.map (fun t => .setItemAttr t.uid .completed (.bool toggle))) e

/-- `Operators.do_operator`: dispatch on the lower-cased operator key;
an unknown key is a no-op. -/
def do_operator (args : OpArgs) (e : Editor) : PyRes :=
  if args.op_key.toLower = 'd' then op_delete args e
  else if args.op_key.toLower = 'y' then op_yank args e
  else if args.op_key.toLower = 'c' then op_change args e
  else if args.op_key.toLower = ' ' then op_complete args e
  else .ok e

/-! ## Motions (`src/vical/commands/motions.py`,
`src/vical/commands/normal.py`) -/

/-- `DateMotion(start, end)` over day ordinals. -/
structure DateMotion where
  start : Int
  stop : Int
deriving DecidableEq, Repr

/-- `Motion.scale(n)`: keep `start`, multiply the signed span by `n`. -/
def DateMotion.scale (m : DateMotion) (n : Int) : DateMotion :=
  ⟨m.start, m.start + (m.stop - m.start) * n⟩

/-- `DateMotion.apply(editor)`: the selected date becomes `end`. -/
def DateMotion.applyTo (m : DateMotion) (_selected : Int) : Int := m.stop

/-- `Motions.date_move(delta_days)` from the current selected date. -/
def date_move (selected : Int) (delta_days : Int) : DateMotion :=
  ⟨selected, selected + delta_days⟩

/-- Digit-string to number (`int()` on the digit-only count buffer). -/
def digitsToNat (cs : List Char) : Nat :=
  cs.foldl (fun n c => n * 10 + (c.toNat - 48)) 0

/-- `NormalCmds._handle_motion` for a plain date motion: a non-empty
count buffer becomes the motion count (default 1), the motion is scaled
and applied to the selection. -/
def handle_date_motion (count_buffer : String) (m : DateMotion) (selected : Int) : Int :=
  let motion_count : Int := if count_buffer ≠ "" then digitsToNat count_buffer.data else 1
  ((m.scale motion_count)).applyTo selected

/-! ## Goto date parsing (`src/vical/commands/utils.py`,
`src/vical/commands/normal.py`) -/

/-- A Python `datetime.date` value. -/
structure PyDate where
  year : Nat
  month : Nat
  day : Nat
deriving DecidableEq, Repr

/-- Gregorian leap year (`calendar.isleap` / `datetime`' s rule). -/
def isLeap (y : Nat) : Bool := y % 4 = 0 && (y % 100 ≠ 0 || y % 400 = 0)

/-- Days in a month. -/
def daysInMonth (y m : Nat) : Nat :=
  if m = 2 then (if isLeap y then 29 else 28)
  else if m = 4 || m = 6 || m = 9 || m = 11 then 30
  else 31

/-- `datetime.date(year, month, day)`: `none` is the `ValueError` for an
out-of-range component (`MINYEAR = 1`, `MAXYEAR = 9999`). -/
def mkDate (y m d : Nat) : Option PyDate :=
  if 1 ≤ y && y ≤ 9999 && 1 ≤ m && m ≤ 12 && 1 ≤ d && d ≤ daysInMonth y m then
    some ⟨y, m, d⟩
  else none

/-- `int()` on a string slice: `none` is the `ValueError` on a non-digit
(count buffers are all digits, but the parser catches it regardless). -/
def digitsToNatChecked (cs : List Char) : Option Nat :=
  if cs.all (fun c => '0' ≤ c && c ≤ '9') && cs ≠ [] then some (digitsToNat cs) else none

/-- `UtilCmds.parse_date_string(date_str)` with the configured
`date_format` (lower-cased) and the current selected date.  Any exception
inside the `try` yields `None`. -/
def parse_date_string (date_str : String) (fmt : String) (current : PyDate) : Option PyDate :=
  let cs := date_str.data
  if cs.length = 8 then
    match digitsToNatChecked (cs.take 2), digitsToNatChecked ((cs.drop 2).take 2),
        digitsToNatChecked (cs.drop 4) with
    | some a, some b, some y =>
      if fmt = "mdy" then mkDate y a b else mkDate y b a
    | _, _, _ => none
  else if cs.length = 6 then
    match digitsToNatChecked (cs.take 2), digitsToNatChecked (cs.drop 2) with
    | some mo, some y => mkDate y mo 1
    | _, _ => none
  else if cs.length = 4 then
    match digitsToNatChecked (cs.take 2), digitsToNatChecked (cs.drop 2) with
    | some a, some b =>
      if fmt = "mdy" then mkDate current.year a b else mkDate current.year b a
    | _, _ => none
  else if cs.length = 1 || cs.length = 2 then
    match digitsToNatChecked cs with
    | some d => mkDate current.year current.month d
    | none => none
  else none

/-- The target date the goto command resolves (`NormalCmds.nv_goto`): an
empty count buffer falls through to `nv_month_start`, the buffer `"0"`
means today, anything else is parsed as a date string. -/
def nv_goto_target (count_buffer : String) (fmt : String) (today current : PyDate) : Option PyDate :=
  if count_buffer = "" then some ⟨current.year, current.month, 1⟩
  else if count_buffer = "0" then some today
  else parse_date_string count_buffer fmt current

/-- The selected date after the goto command: an unparsable buffer
changes nothing (`if not target_date: return`). -/
def nv_goto_selected (count_buffer : String) (fmt : String) (today current : PyDate) : PyDate :=
  match nv_goto_target count_buffer fmt today current with
  | none => current
  | some d => d

/-- Items sorted as a `Prop` (what `pairwiseB itemLe` decides). -/
abbrev ItemsSorted (l : List Item) : Prop := l.Pairwise (fun a b => itemLe a b = true)

/-! ## Concrete fixtures -/

/-- A task item (desc/remind defaulted, event fields unused). -/
def mkTask (uid name : String) (d : Int) (completed : Bool) (parent : Option String) : Item :=
  ⟨uid, .task, name, "", 0, parent, d, none, completed, 0, 0⟩

/-- An event item (task fields unused). -/
def mkEvent (uid name : String) (sd ed : Int) (parent : Option String) : Item :=
  ⟨uid, .event, name, "", 0, parent, 0, none, false, sd, ed⟩

/-- A subcalendar fixture. -/
def mkSubcal (uid name : String) (items : List Item) : Subcalendar :=
  ⟨uid, name, "green", false, items⟩

/-- Fresh history. -/
def emptyHistory : History := ⟨[], [], none⟩

/-- An editor fixture with `max_history = 50` (the configured default). -/
def mkEditor (m : Model) (h : History) : Editor := ⟨m, h, emptyRegisters, 50⟩

/-! ## C10: no-op attribute writes -/

/-- Decides that a call is a `tx_set_item_attr` whose new value equals
the live item's current attribute value. -/
def isNoopSet (m : Model) : TxCall → Bool
  | .setItemAttr uid attr v =>
    match get_item_by_uid m uid with
    | some it => getAttr it attr = v
    | none => false
  | _ => false

/-! ## C3: commit and bounded history -/

/-- The undo-stack transformation a single non-empty commit performs:
push, then evict the oldest entry if the bound is exceeded. -/
def commitStackStep (maxH : Nat) (s : List Transaction) (tx : Transaction) : List Transaction :=
  if maxH < (s ++ [tx]).length then (s ++ [tx]).drop 1 else s ++ [tx]

/-- Commit a list of built transactions one after another. -/
def commitMany (txs : List Transaction) (e : Editor) : Editor :=
  txs.foldl
    (fun acc tx => commit_transaction { acc with history := { acc.history with current_tx := some tx } })
    e

/-! ## C2: transaction atomicity on failure -/

/-- A transaction body that performs some mutations and then hits an
exception (the simulated fault of the claim). -/
def faultingBody (calls : List TxCall) (msg : String) (e : Editor) : PyRes :=
  match runTxCalls calls e with
  | .ok e1 => .exn msg e1
  | .exn m s => .exn m s

/-! ## C7: sort-order invariant -/

/-- Every subcalendar's items list is sorted by `sort_key` (executable). -/
def SortedModelB (m : Model) : Bool := m.all (fun sc => pairwiseB itemLe sc.items)

/-- The ops whose apply/revert the sort invariant covers. -/
def isStructuralOp : Op → Bool
  | .insertItem _ _ => true
  | .removeItem _ _ => true
  | .moveItem _ _ _ => true
  | _ => false

/-- The transaction-layer calls the sort invariant covers. -/
def isStructuralCall : TxCall → Bool
  | .insertItem _ _ => true
  | .removeItem _ => true
  | .moveItem _ _ => true
  | _ => false

/-- One step of the sequences the sort invariant quantifies over: a
transaction-layer call, or an op replay during redo/undo. -/
inductive SortStep where
  | call (c : TxCall)
  | applyStep (op : Op)
  | revertStep (op : Op)
deriving DecidableEq, Repr

def isStructuralStep : SortStep → Bool
  | .call c => isStructuralCall c
  | .applyStep op => isStructuralOp op
  | .revertStep op => isStructuralOp op

def runSortStep : SortStep → Editor → Option Editor
  | .call c, e =>
    match runTxCall c e with
    | .ok e' => some e'
    | .exn _ _ => none
  | .applyStep op, e => (Op.apply op e.subcalendars).map (fun m => { e with subcalendars := m })
  | .revertStep op, e => (op.revert e.subcalendars).map (fun m => { e with subcalendars := m })

def runSortSteps : List SortStep → Editor → Option Editor
  | [], e => some e
  | s :: ss, e =>
    match runSortStep s e with
    | none => none
    | some e' => runSortSteps ss e'

/-! ## C1: undo/redo round trip — foundations -/

/-- All items of the model, in scan order. -/
def allItems (m : Model) : List Item := m.flatMap (fun sc => sc.items)

/-- The shape of the round-trip property a single transaction-layer call
establishes: the ops it recorded, their forward replay, and their
reverse replay. -/
def CallSpec (e e1 : Editor) (tx : Transaction) (ops_c : List Op) : Prop :=
  e1.history.current_tx = some ⟨tx.label, tx.ops ++ ops_c⟩
  ∧ runOpList Op.apply ops_c e.subcalendars = .ok e1.subcalendars
  ∧ runOpList Op.revert ops_c.reverse e1.subcalendars = .ok e.subcalendars

/-- Well-formed base editor for the C1 witness run: one empty
subcalendar. -/
def c1Base : Editor := mkEditor [mkSubcal "c" "cal" []] emptyHistory

/-- The item inserted during the C1 witness run. -/
def c1Item : Item := mkTask "t" "a" 0 false none

/-- The editor after the witness run's single insert call. -/
def c1Mid : Editor :=
  { c1Base with
    subcalendars := [mkSubcal "c" "cal" [mkTask "t" "a" 0 false (some "c")]],
    history := { c1Base.history with current_tx := some ⟨"w", [.insertItem "c" c1Item]⟩ } }

/-- Two tasks with EQUAL sort keys (same date, same name): the stable
re-sort during undo need not put them back in their original order. -/
def c1xA : Item := mkTask "x" "a" 0 false (some "c")

/-- The second equal-key task of the C1 counterexample. -/
def c1xB : Item := mkTask "b" "a" 0 false (some "c")

/-- The C1 counterexample editor at `begin_transaction`: items `[A, B]`
in the one subcalendar, a transaction active, nothing recorded yet. -/
def c1xBegun : Editor :=
  mkEditor [mkSubcal "c" "cal" [c1xA, c1xB]] ⟨[], [], some ⟨"d", []⟩⟩

/-- The editor after removing item `x` inside the transaction. -/
def c1xMid : Editor :=
  mkEditor [mkSubcal "c" "cal" [c1xB]] ⟨[], [], some ⟨"d", [.removeItem "c" c1xA]⟩⟩

/-- The editor `tx_undo` produces after committing: the two equal-key
items come back in the order `[B, A]`, not the original `[A, B]`. -/
def c1xUndone : Editor :=
  mkEditor [mkSubcal "c" "cal" [c1xB, c1xA]] ⟨[], [⟨"d", [.removeItem "c" c1xA]⟩], none⟩

/-! ## Sorting lemmas -/

theorem pairwiseB_iff (p : α → α → Bool) (l : List α) :
    pairwiseB p l = true ↔ l.Pairwise (fun a b => p a b = true) := by
  induction l with
  | nil => simp [pairwiseB]
  | cons x xs ih => simp [pairwiseB, List.pairwise_cons, ih, List.all_eq_true, and_comm]

theorem insSorted_perm (le : α → α → Bool) (x : α) (l : List α) :
    (insSorted le x l).Perm (x :: l) := by
  induction l with
  | nil => simp [insSorted]
  | cons y ys ih =>
    cases hxy : le x y with
    | true => simp [insSorted, hxy]
    | false =>
      simp only [insSorted, hxy, Bool.false_eq_true, if_false]
      exact (ih.cons y).trans (List.Perm.swap x y ys)

theorem pySort_perm (le : α → α → Bool) (l : List α) : (pySort le l).Perm l := by
  induction l with
  | nil => simp [pySort]
  | cons x xs ih => exact (insSorted_perm le x (pySort le xs)).trans (ih.cons x)

theorem insSorted_pairwise (le : α → α → Bool)
    (htrans : ∀ a b c, le a b = true → le b c = true → le a c = true)
    (htotal : ∀ a b, le a b = true ∨ le b a = true)
    (x : α) (l : List α) (hl : l.Pairwise (fun a b => le a b = true)) :
    (insSorted le x l).Pairwise (fun a b => le a b = true) := by
  induction l with
  | nil => simp [insSorted]
  | cons y ys ih =>
    rcases List.pairwise_cons.mp hl with ⟨hy, hys⟩
    cases hxy : le x y with
    | true =>
      simp only [insSorted, hxy, if_true]
      refine List.pairwise_cons.mpr ⟨?_, hl⟩
      intro z hz
      rcases List.mem_cons.mp hz with hz | hz
      · subst hz; exact hxy
      · exact htrans x y z hxy (hy z hz)
    | false =>
      simp only [insSorted, hxy, Bool.false_eq_true, if_false]
      refine List.pairwise_cons.mpr ⟨?_, ih hys⟩
      intro z hz
      have hz' : z ∈ x :: ys := (insSorted_perm le x ys).mem_iff.mp hz
      rcases List.mem_cons.mp hz' with hz' | hz'
      · rw [hz']
        rcases htotal x y with h | h
        · exact absurd h (by simp [hxy])
        · exact h
      · exact hy z hz'

theorem pySort_pairwise (le : α → α → Bool)
    (htrans : ∀ a b c, le a b = true → le b c = true → le a c = true)
    (htotal : ∀ a b, le a b = true ∨ le b a = true) (l : List α) :
    (pySort le l).Pairwise (fun a b => le a b = true) := by
  induction l with
  | nil => simp [pySort]
  | cons x xs ih => exact insSorted_pairwise le htrans htotal x (pySort le xs) ih

theorem pySort_of_pairwise (le : α → α → Bool) (l : List α)
    (hl : l.Pairwise (fun a b => le a b = true)) : pySort le l = l := by
  induction l with
  | nil => rfl
  | cons x xs ih =>
    rcases List.pairwise_cons.mp hl with ⟨hx, hxs⟩
    have hrec : pySort le (x :: xs) = insSorted le x xs := by
      simp [pySort, ih hxs]
    rw [hrec]
    cases xs with
    | nil => rfl
    | cons y ys => simp [insSorted, hx y (by simp)]

/-! ### The item ordering is a total preorder, antisymmetric on keys -/

theorem char_toNat_inj (a b : Char) (h : a.toNat = b.toNat) : a = b :=
  Char.ext (UInt32.eq_of_val_eq (Fin.ext h))

theorem charListLe_total (a b : List Char) :
    charListLe a b = true ∨ charListLe b a = true := by
  induction a generalizing b with
  | nil => left; rfl
  | cons x xs ih =>
    cases b with
    | nil => right; rfl
    | cons y ys =>
      rcases Nat.lt_trichotomy x.toNat y.toNat with h | h | h
      · left; simp [charListLe, charLt, h]
      · rcases ih ys with h2 | h2
        · left; simp [charListLe, charLt, h, h2]
        · right; simp [charListLe, charLt, h.symm, h2]
      · right; simp [charListLe, charLt, h]

theorem charListLe_trans (a b c : List Char)
    (hab : charListLe a b = true) (hbc : charListLe b c = true) :
    charListLe a c = true := by
  induction a generalizing b c with
  | nil => rfl
  | cons x xs ih =>
    cases b with
    | nil => simp [charListLe] at hab
    | cons y ys =>
      cases c with
      | nil => simp [charListLe] at hbc
      | cons z zs =>
        simp only [charListLe, charLt] at hab hbc ⊢
        rcases Nat.lt_trichotomy x.toNat y.toNat with h1 | h1 | h1
        · rcases Nat.lt_trichotomy y.toNat z.toNat with h2 | h2 | h2
          · simp [Nat.lt_trans h1 h2]
          · simp [h2 ▸ h1]
          · simp [h2, Nat.lt_asymm h2] at hbc
        · rcases Nat.lt_trichotomy y.toNat z.toNat with h2 | h2 | h2
          · simp [h1 ▸ h2]
          · have k1 : ¬ x.toNat < y.toNat := by omega
            have k2 : ¬ y.toNat < x.toNat := by omega
            have k3 : ¬ y.toNat < z.toNat := by omega
            have k4 : ¬ z.toNat < y.toNat := by omega
            have k5 : ¬ x.toNat < z.toNat := by omega
            have k6 : ¬ z.toNat < x.toNat := by omega
            simp [k1, k2, k3, k4, k5, k6] at hab hbc ⊢
            exact ih ys zs hab hbc
          · simp [h2, Nat.lt_asymm h2] at hbc
        · simp [h1, Nat.lt_asymm h1] at hab

theorem charListLe_antisymm (a b : List Char)
    (hab : charListLe a b = true) (hba : charListLe b a = true) : a = b := by
  induction a generalizing b with
  | nil =>
    cases b with
    | nil => rfl
    | cons y ys => simp [charListLe] at hba
  | cons x xs ih =>
    cases b with
    | nil => simp [charListLe] at hab
    | cons y ys =>
      simp only [charListLe, charLt] at hab hba
      rcases Nat.lt_trichotomy x.toNat y.toNat with h | h | h
      · simp [h, Nat.lt_asymm h] at hba
      · have hult : ¬ x.toNat < y.toNat := by omega
        have hult2 : ¬ y.toNat < x.toNat := by omega
        simp [hult, hult2] at hab hba
        rw [char_toNat_inj x y h, ih ys hab hba]
      · simp [h, Nat.lt_asymm h] at hab

theorem keyLe_total (a b : Int × Nat × List Char) :
    keyLe a b = true ∨ keyLe b a = true := by
  rcases a with ⟨a1, a2, a3⟩
  rcases b with ⟨b1, b2, b3⟩
  simp only [keyLe, Bool.or_eq_true, Bool.and_eq_true, decide_eq_true_eq]
  rcases lt_trichotomy a1 b1 with h | h | h
  · exact Or.inl (Or.inl h)
  · subst h
    rcases lt_trichotomy a2 b2 with h2 | h2 | h2
    · exact Or.inl (Or.inr ⟨rfl, Or.inl h2⟩)
    · subst h2
      rcases charListLe_total a3 b3 with h3 | h3
      · exact Or.inl (Or.inr ⟨rfl, Or.inr ⟨rfl, h3⟩⟩)
      · exact Or.inr (Or.inr ⟨rfl, Or.inr ⟨rfl, h3⟩⟩)
    · exact Or.inr (Or.inr ⟨rfl, Or.inl h2⟩)
  · exact Or.inr (Or.inl h)

theorem keyLe_trans (a b c : Int × Nat × List Char)
    (hab : keyLe a b = true) (hbc : keyLe b c = true) : keyLe a c = true := by
  rcases a with ⟨a1, a2, a3⟩
  rcases b with ⟨b1, b2, b3⟩
  rcases c with ⟨c1, c2, c3⟩
  simp only [keyLe, Bool.or_eq_true, Bool.and_eq_true, decide_eq_true_eq] at hab hbc ⊢
  rcases hab with h1 | ⟨he1, h2⟩
  · rcases hbc with g1 | ⟨ge1, _⟩
    · exact Or.inl (h1.trans g1)
    · subst ge1; exact Or.inl h1
  · subst he1
    rcases hbc with g1 | ⟨ge1, g2⟩
    · exact Or.inl g1
    · subst ge1
      rcases h2 with h2 | ⟨he2, h3⟩
      · rcases g2 with g2 | ⟨ge2, _⟩
        · exact Or.inr ⟨rfl, Or.inl (h2.trans g2)⟩
        · subst ge2; exact Or.inr ⟨rfl, Or.inl h2⟩
      · subst he2
        rcases g2 with g2 | ⟨ge2, g3⟩
        · exact Or.inr ⟨rfl, Or.inl g2⟩
        · subst ge2
          exact Or.inr ⟨rfl, Or.inr ⟨rfl, charListLe_trans a3 b3 c3 h3 g3⟩⟩

theorem keyLe_antisymm (a b : Int × Nat × List Char)
    (hab : keyLe a b = true) (hba : keyLe b a = true) : a = b := by
  rcases a with ⟨a1, a2, a3⟩
  rcases b with ⟨b1, b2, b3⟩
  simp only [keyLe, Bool.or_eq_true, Bool.and_eq_true, decide_eq_true_eq] at hab hba
  rcases hab with h1 | ⟨he1, h2⟩
  · rcases hba with g1 | ⟨ge1, _⟩
    · exact absurd (h1.trans g1) (lt_irrefl a1)
    · exact absurd h1 (by omega)
  · subst he1
    rcases hba with g1 | ⟨_, g2⟩
    · exact absurd g1 (lt_irrefl a1)
    · rcases h2 with h2 | ⟨he2, h3⟩
      · rcases g2 with g2 | ⟨ge2, _⟩
        · exact absurd (h2.trans g2) (lt_irrefl a2)
        · exact absurd h2 (by omega)
      · subst he2
        rcases g2 with g2 | ⟨_, g3⟩
        · exact absurd g2 (lt_irrefl a2)
        · rw [charListLe_antisymm a3 b3 h3 g3]

theorem itemLe_total (a b : Item) : itemLe a b = true ∨ itemLe b a = true :=
  keyLe_total a.sort_key b.sort_key

theorem itemLe_trans (a b c : Item) (hab : itemLe a b = true) (hbc : itemLe b c = true) :
    itemLe a c = true :=
  keyLe_trans a.sort_key b.sort_key c.sort_key hab hbc

theorem itemLe_key_antisymm (a b : Item) (hab : itemLe a b = true) (hba : itemLe b a = true) :
    a.sort_key = b.sort_key :=
  keyLe_antisymm a.sort_key b.sort_key hab hba

theorem sortItems_perm (l : List Item) : (sortItems l).Perm l := pySort_perm itemLe l

theorem sortItems_pairwise (l : List Item) : ItemsSorted (sortItems l) :=
  pySort_pairwise itemLe itemLe_trans itemLe_total l

theorem sortItems_of_sorted (l : List Item) (h : ItemsSorted l) : sortItems l = l :=
  pySort_of_pairwise itemLe l h

/-- In a list whose sort keys are pairwise distinct, an element is
determined by its sort key. -/
theorem mem_eq_of_sort_key_eq (l : List Item)
    (hd : l.Pairwise (fun a b => a.sort_key ≠ b.sort_key))
    (a b : Item) (ha : a ∈ l) (hb : b ∈ l) (hk : a.sort_key = b.sort_key) : a = b := by
  induction l with
  | nil => cases ha
  | cons x xs ih =>
    rcases List.pairwise_cons.mp hd with ⟨hx, hxs⟩
    rcases List.mem_cons.mp ha with ha1 | ha1 <;> rcases List.mem_cons.mp hb with hb1 | hb1
    · rw [ha1, hb1]
    · rw [ha1] at hk ⊢
      exact absurd hk (hx b hb1)
    · rw [hb1] at hk ⊢
      exact absurd hk.symm (hx a ha1)
    · exact ih hxs ha1 hb1

/-- Two sorted permutations of the same items are equal when sort keys
are pairwise distinct (sortedness with distinct keys pins the order). -/
theorem sorted_perm_eq (l₁ l₂ : List Item) (hp : l₁.Perm l₂)
    (h₁ : ItemsSorted l₁) (h₂ : ItemsSorted l₂)
    (hd : l₂.Pairwise (fun a b => a.sort_key ≠ b.sort_key)) : l₁ = l₂ := by
  refine List.Perm.eq_of_sorted ?_ h₁ h₂ hp
  intro a b ha hb hab hba
  exact mem_eq_of_sort_key_eq l₂ hd a b (hp.mem_iff.mp ha) hb (itemLe_key_antisymm a b hab hba)

/-! ## C9: transaction-log state machine errors -/

/-- C9: calling `begin_transaction` while a transaction is active raises
(nesting forbidden), and calling `record` while no transaction is active
raises; both raise before mutating anything, so the editor — its undo
and redo stacks included — is exactly the one at the call. -/
theorem C9_tx_state_machine_errors (e : Editor) (tx : Transaction) (op : Op) (label : String) :
    (e.history.current_tx = some tx →
      begin_transaction e label = .exn "Nested transactions are not allowed" e) ∧
    (e.history.current_tx = none →
      record e op = .exn "record() called outside of transaction" e) := by
  constructor
  · intro h; simp [begin_transaction, h]
  · intro h; simp [record, h]

/-- C9 witness: both branches at concrete editors. -/
theorem C9_tx_state_machine_errors_witness :
    (begin_transaction (mkEditor [] ⟨[], [], some ⟨"t", []⟩⟩) "x"
      = .exn "Nested transactions are not allowed" (mkEditor [] ⟨[], [], some ⟨"t", []⟩⟩))
    ∧ (record (mkEditor [] emptyHistory) (.insertSubcal 0 (mkSubcal "c" "c" []))
      = .exn "record() called outside of transaction" (mkEditor [] emptyHistory)) :=
  ⟨(C9_tx_state_machine_errors (mkEditor [] ⟨[], [], some ⟨"t", []⟩⟩) ⟨"t", []⟩
      (.insertSubcal 0 (mkSubcal "c" "c" [])) "x").1 rfl,
   (C9_tx_state_machine_errors (mkEditor [] emptyHistory) ⟨"t", []⟩
      (.insertSubcal 0 (mkSubcal "c" "c" [])) "x").2 rfl⟩

/-! ## C8: motion count scaling -/

/-- C8: `DateMotion.scale(n)` keeps the start and multiplies the signed
span `end - start` by `n`; consequently, from selected date `D`, a
motion bound to a delta of 7 days processed with count buffer "3" sets
the selected date to `D + 21`. -/
theorem C8_motion_count_scaling :
    (∀ (m : DateMotion) (n : Int),
      (m.scale n).start = m.start
        ∧ (m.scale n).stop - (m.scale n).start = ((m.stop - m.start)) * n)
    ∧ (∀ D : Int, handle_date_motion "3" (date_move D 7) D = D + 21) := by
  constructor
  · intro m n
    refine ⟨rfl, ?_⟩
    simp [DateMotion.scale]
  · intro D
    have h3 : digitsToNat "3".data = 3 := by decide
    simp [handle_date_motion, date_move, DateMotion.scale, DateMotion.applyTo, h3]

/-! ## C4: toggle-complete -/

/-- C4: what the code actually does, and what it was meant to do.  The
filter in `op_complete` is written `ifinstance(t, Task)`: `ifinstance`
is an undefined name, so dispatching the toggle-complete key on any
non-empty target set raises `NameError` before any toggle value is
computed, leaving the editor untouched (first conjunct, the code as
shipped).  With the evident `isinstance` fix (`op_complete_intended`)
the majority rule of the claim holds on the spec's 3-task scenario:
2 complete + 1 incomplete toggles all 3 to complete, and re-toggling
sets all 3 to incomplete (second and third conjuncts). -/
theorem C4_toggle_complete_code_bug :
    (∀ (args : OpArgs) (e : Editor), args.target_items ≠ [] → args.op_key = ' ' →
      do_operator args e = .exn "NameError: name 'ifinstance' is not defined" e)
    ∧ (op_complete_intended ⟨' ', ["t1", "t2", "t3"], "\"", ""⟩
        (mkEditor [mkSubcal "c" "cal" [mkTask "t1" "a" 0 true (some "c"),
          mkTask "t2" "b" 0 true (some "c"), mkTask "t3" "c" 0 false (some "c")]]
          ⟨[], [], some ⟨"toggle", []⟩⟩)
        = .ok (mkEditor [mkSubcal "c" "cal" [mkTask "t1" "a" 0 true (some "c"),
            mkTask "t2" "b" 0 true (some "c"), mkTask "t3" "c" 0 true (some "c")]]
          ⟨[], [], some ⟨"toggle",
            [.setItemAttr "t3" .completed (.bool false) (.bool true)]⟩⟩))
    ∧ (op_complete_intended ⟨' ', ["t1", "t2", "t3"], "\"", ""⟩
        (mkEditor [mkSubcal "c" "cal" [mkTask "t1" "a" 0 true (some "c"),
          mkTask "t2" "b" 0 true (some "c"), mkTask "t3" "c" 0 true (some "c")]]
          ⟨[], [], some ⟨"toggle", []⟩⟩)
        = .ok (mkEditor [mkSubcal "c" "cal" [mkTask "t1" "a" 0 false (some "c"),
            mkTask "t2" "b" 0 false (some "c"), mkTask "t3" "c" 0 false (some "c")]]
          ⟨[], [], some ⟨"toggle",
            [.setItemAttr "t1" .completed (.bool true) (.bool false),
             .setItemAttr "t2" .completed (.bool true) (.bool false),
             .setItemAttr "t3" .completed (.bool true) (.bool false)]⟩⟩)) := by
  refine ⟨?_, by decide, by decide⟩
  intro args e hne hkey
  rcases args with ⟨k, targets, rn, tx⟩
  cases targets with
  | nil => exact absurd rfl hne
  | cons t ts =>
    simp only at hkey
    subst hkey
    simp [do_operator, op_complete]

/-- C4 witness: the NameError branch at the spec's own failing input
(3 tasks, 2 complete and 1 incomplete). -/
theorem C4_toggle_complete_code_bug_witness :
    do_operator ⟨' ', ["t1", "t2", "t3"], "\"", ""⟩
      (mkEditor [mkSubcal "c" "cal" [mkTask "t1" "a" 0 true (some "c"),
        mkTask "t2" "b" 0 true (some "c"), mkTask "t3" "c" 0 false (some "c")]]
        ⟨[], [], some ⟨"toggle", []⟩⟩)
      = .exn "NameError: name 'ifinstance' is not defined"
        (mkEditor [mkSubcal "c" "cal" [mkTask "t1" "a" 0 true (some "c"),
          mkTask "t2" "b" 0 true (some "c"), mkTask "t3" "c" 0 false (some "c")]]
          ⟨[], [], some ⟨"toggle", []⟩⟩) :=
  C4_toggle_complete_code_bug.1 ⟨' ', ["t1", "t2", "t3"], "\"", ""⟩
    (mkEditor [mkSubcal "c" "cal" [mkTask "t1" "a" 0 true (some "c"),
      mkTask "t2" "b" 0 true (some "c"), mkTask "t3" "c" 0 false (some "c")]]
      ⟨[], [], some ⟨"toggle", []⟩⟩)
    (by decide) rfl

/-! ## C6: goto date parsing -/

/-- C6 counterexample: with selected date 2026-07-15 and today also
2026-07-15, the goto command with an empty count buffer selects
2026-07-01 (`nv_goto` falls through to `nv_month_start`), not today as
the claim states. -/
theorem C6_goto_empty_buffer_counterexample :
    nv_goto_selected "" "mdy" ⟨2026, 7, 15⟩ ⟨2026, 7, 15⟩ = ⟨2026, 7, 1⟩
    ∧ nv_goto_selected "" "mdy" ⟨2026, 7, 15⟩ ⟨2026, 7, 15⟩ ≠ ⟨2026, 7, 15⟩ := by
  constructor
  · rfl
  · decide

/-- C6 (amended): the goto parsing contract, with the empty buffer
resolving to the first day of the currently selected month (and the
buffer "0" to today) instead of the claim's "empty resolves to today":
8 digits are day/month/year per the format (mdy: "07042026" is July 4,
2026), 6 digits are month+year with day 1, 4 digits are day/month with
the selection's year, 1–2 digits are a day in the selection's month,
and a malformed buffer leaves the selection unchanged. -/
theorem C6_goto_parsing_amended :
    (∀ current : PyDate, parse_date_string "07042026" "mdy" current = some ⟨2026, 7, 4⟩)
    ∧ (∀ (fmt : String) (current : PyDate),
        parse_date_string "072026" fmt current = some ⟨2026, 7, 1⟩)
    ∧ (∀ current : PyDate,
        parse_date_string "0704" "mdy" current = mkDate current.year 7 4)
    ∧ (∀ (fmt : String) (current : PyDate),
        parse_date_string "5" fmt current = mkDate current.year current.month 5)
    ∧ (∀ (fmt : String) (today current : PyDate),
        nv_goto_selected "" fmt today current = ⟨current.year, current.month, 1⟩)
    ∧ (∀ (fmt : String) (today current : PyDate),
        nv_goto_selected "0" fmt today current = today)
    ∧ (∀ (cb fmt : String) (today current : PyDate),
        nv_goto_target cb fmt today current = none →
          nv_goto_selected cb fmt today current = current) := by
  refine ⟨fun current => rfl, fun fmt current => rfl, fun current => rfl,
    fun fmt current => ?_, fun fmt today current => rfl, fun fmt today current => rfl,
    fun cb fmt today current h => ?_⟩
  · rfl
  · simp [nv_goto_selected, h]

/-- C6 witness: the last clause at a malformed 3-digit buffer; the
others have no hypotheses, sampled at one concrete date anyway. -/
theorem C6_goto_parsing_amended_witness :
    nv_goto_target "123" "mdy" ⟨2026, 7, 15⟩ ⟨2026, 7, 15⟩ = none
    ∧ nv_goto_selected "123" "mdy" ⟨2026, 7, 15⟩ ⟨2026, 7, 15⟩ = ⟨2026, 7, 15⟩ :=
  ⟨rfl, C6_goto_parsing_amended.2.2.2.2.2.2 "123" "mdy" ⟨2026, 7, 15⟩ ⟨2026, 7, 15⟩ rfl⟩

theorem noop_call_ok (e : Editor) (c : TxCall) (h : isNoopSet e.subcalendars c = true) :
    runTxCall c e = .ok e := by
  cases c with
  | setItemAttr uid attr v =>
    simp only [isNoopSet] at h
    cases hit : get_item_by_uid e.subcalendars uid with
    | none => rw [hit] at h; cases h
    | some it =>
      rw [hit] at h
      simp only [decide_eq_true_eq] at h
      simp [runTxCall, tx_set_item_attr, hit, h]
  | insertItem scUid item => simp [isNoopSet] at h
  | removeItem uid => simp [isNoopSet] at h
  | moveItem uid dst => simp [isNoopSet] at h
  | setSubcalAttr uid attr v => simp [isNoopSet] at h
  | insertSubcal sc => simp [isNoopSet] at h
  | removeSubcal uid => simp [isNoopSet] at h

theorem noop_calls_ok (calls : List TxCall) (e : Editor)
    (h : ∀ c ∈ calls, isNoopSet e.subcalendars c = true) :
    runTxCalls calls e = .ok e := by
  induction calls with
  | nil => rfl
  | cons c cs ih =>
    have hc := noop_call_ok e c (h c (by simp))
    simp only [runTxCalls, hc]
    exact ih (fun c' hc' => h c' (by simp [hc']))

/-- C10: a `tx_set_item_attr` whose new value equals the current value
returns without recording an Op or mutating anything, and a whole
transaction block consisting only of such calls returns the editor — the
entity model, the undo stack and the redo stack — exactly as it was. -/
theorem C10_noop_attr_writes (e : Editor) (uid : String) (attr : AttrName) (v : AttrVal)
    (calls : List TxCall) (label : String)
    (hnoop1 : isNoopSet e.subcalendars (.setItemAttr uid attr v) = true)
    (hidle : e.history.current_tx = none)
    (hnoops : ∀ c ∈ calls, isNoopSet e.subcalendars c = true) :
    tx_set_item_attr e uid attr v = .ok e
    ∧ transaction_block label (runTxCalls calls) e = .ok e := by
  constructor
  · exact noop_call_ok e (.setItemAttr uid attr v) hnoop1
  · have hbegin : begin_transaction e label
        = .ok { e with history := { e.history with current_tx := some ⟨label, []⟩ } } := by
      simp [begin_transaction, hidle]
    have hbody : runTxCalls calls { e with history := { e.history with current_tx := some ⟨label, []⟩ } }
        = .ok { e with history := { e.history with current_tx := some ⟨label, []⟩ } } :=
      noop_calls_ok calls _ (fun c hc => hnoops c hc)
    have hcommit : commit_transaction { e with history := { e.history with current_tx := some ⟨label, []⟩ } } = e := by
      simp only [commit_transaction]
      rcases e with ⟨m, ⟨u, r, ct⟩, regs, mh⟩
      simp only at hidle
      subst hidle
      rfl
    simp only [transaction_block, hbegin, hbody, hcommit]

/-- C10 witness: a no-op completed-flag write on a concrete editor. -/
theorem C10_noop_attr_writes_witness :
    tx_set_item_attr (mkEditor [mkSubcal "c" "cal" [mkTask "t1" "a" 0 true (some "c")]] emptyHistory)
        "t1" .completed (.bool true)
      = .ok (mkEditor [mkSubcal "c" "cal" [mkTask "t1" "a" 0 true (some "c")]] emptyHistory)
    ∧ transaction_block "noop" (runTxCalls [.setItemAttr "t1" .completed (.bool true)])
        (mkEditor [mkSubcal "c" "cal" [mkTask "t1" "a" 0 true (some "c")]] emptyHistory)
      = .ok (mkEditor [mkSubcal "c" "cal" [mkTask "t1" "a" 0 true (some "c")]] emptyHistory) :=
  C10_noop_attr_writes (mkEditor [mkSubcal "c" "cal" [mkTask "t1" "a" 0 true (some "c")]] emptyHistory)
    "t1" .completed (.bool true) [.setItemAttr "t1" .completed (.bool true)] "noop"
    (by decide) rfl (by decide)

theorem commitStackStep_eq_drop (maxH : Nat) (s : List Transaction) (tx : Transaction)
    (hs : s.length ≤ maxH) :
    commitStackStep maxH s tx = (s ++ [tx]).drop (s.length + 1 - maxH) := by
  simp only [commitStackStep, List.length_append, List.length_cons, List.length_nil]
  by_cases h : maxH < s.length + 1
  · have : s.length + 1 - maxH = 1 := by omega
    rw [this]
    simp [h]
  · have : s.length + 1 - maxH = 0 := by omega
    rw [this]
    simp [h]

theorem commitStackStep_length_le (maxH : Nat) (s : List Transaction) (tx : Transaction)
    (hs : s.length ≤ maxH) : (commitStackStep maxH s tx).length ≤ maxH := by
  simp only [commitStackStep]
  by_cases h : maxH < (s ++ [tx]).length
  · simp only [h, if_true]
    simp only [List.length_drop, List.length_append, List.length_cons, List.length_nil]
    omega
  · simp only [h, if_false]
    simp only [List.length_append, List.length_cons, List.length_nil] at h ⊢
    omega

theorem commitStack_fold (maxH : Nat) (txs : List Transaction) (s : List Transaction)
    (hs : s.length ≤ maxH) :
    txs.foldl (commitStackStep maxH) s = (s ++ txs).drop (s.length + txs.length - maxH) := by
  induction txs generalizing s with
  | nil =>
    simp only [List.foldl_nil, List.append_nil, List.length_nil, Nat.add_zero]
    have : s.length - maxH = 0 := by omega
    rw [this, List.drop_zero]
  | cons t ts ih =>
    simp only [List.foldl_cons]
    rw [ih (commitStackStep maxH s t) (commitStackStep_length_le maxH s t hs),
      commitStackStep_eq_drop maxH s t hs]
    have hc : s.length + 1 - maxH ≤ (s ++ [t]).length := by
      simp only [List.length_append, List.length_cons, List.length_nil]
      omega
    rw [← List.drop_append_of_le_length hc, List.drop_drop]
    have h2 : (s ++ [t]) ++ ts = s ++ t :: ts := by simp
    rw [h2]
    congr 1
    simp only [List.length_drop, List.length_append, List.length_cons, List.length_nil]
    omega

theorem commit_nonempty_eq (e : Editor) (tx : Transaction) (hops : tx.ops ≠ []) :
    commit_transaction { e with history := { e.history with current_tx := some tx } }
      = { e with history := ⟨commitStackStep e.max_history e.history.undo_stack tx, [], none⟩ } := by
  simp only [commit_transaction, commitStackStep, hops, if_false]

theorem commitMany_spec (txs : List Transaction) (e : Editor)
    (hne : ∀ t ∈ txs, t.ops ≠ []) (hs : e.history.undo_stack.length ≤ e.max_history)
    (hnil : txs ≠ []) :
    commitMany txs e
      = { e with history := ⟨txs.foldl (commitStackStep e.max_history) e.history.undo_stack, [], none⟩ } := by
  induction txs generalizing e with
  | nil => exact absurd rfl hnil
  | cons t ts ih =>
    have hstep : commitMany (t :: ts) e
        = commitMany ts (commit_transaction { e with history := { e.history with current_tx := some t } }) := rfl
    rw [hstep, commit_nonempty_eq e t (hne t (by simp))]
    cases ts with
    | nil => simp [commitMany]
    | cons t2 ts2 =>
      rw [ih { e with history := ⟨commitStackStep e.max_history e.history.undo_stack t, [], none⟩ }
        (fun x hx => hne x (by simp [hx])) (commitStackStep_length_le _ _ _ hs) (by simp)]
      simp

/-- C3: `commit_transaction` discards a zero-op transaction (nothing is
pushed and the redo stack is untouched); a non-empty transaction is
pushed, the redo stack is cleared, and the oldest entry is evicted
whenever the undo stack would exceed `max_history`; hence committing
`max_history + k` non-empty transactions (k > 0) onto an empty undo
stack retains exactly the last `max_history` of them, and once the
retained entries are exhausted `tx_undo` has nothing left to reach
(an editor with an empty undo stack is returned unchanged). -/
theorem C3_commit_bounded_history (e : Editor) (tx : Transaction) (txs : List Transaction) (k : Nat)
    (hcur : e.history.current_tx = some tx)
    (hstart : e.history.undo_stack = [])
    (hne : ∀ t ∈ txs, t.ops ≠ [])
    (hlen : txs.length = e.max_history + k) (hk : 0 < k) :
    (tx.ops = [] →
      commit_transaction e = { e with history := ⟨e.history.undo_stack, e.history.redo_stack, none⟩ })
    ∧ (tx.ops ≠ [] →
      commit_transaction e = { e with history := ⟨commitStackStep e.max_history e.history.undo_stack tx, [], none⟩ })
    ∧ (commitMany txs e).history.undo_stack = txs.drop k
    ∧ ((commitMany txs e).history.undo_stack.length = e.max_history)
    ∧ (∀ e2 : Editor, e2.history.undo_stack = [] → tx_undo e2 = .ok e2) := by
  refine ⟨?_, ?_, ?_, ?_, ?_⟩
  · intro hops
    simp [commit_transaction, hcur, hops]
  · intro hops
    have h1 : { e with history := { e.history with current_tx := some tx } } = e := by
      rcases e with ⟨m, ⟨u, r, ct⟩, regs, mh⟩
      simp only at hcur
      rw [hcur]
    conv in commit_transaction e => rw [show e = { e with history := { e.history with current_tx := some tx } } from h1.symm]
    exact commit_nonempty_eq e tx hops
  · rw [commitMany_spec txs e hne (by rw [hstart]; simp) (by intro h; rw [h] at hlen; simp at hlen; omega)]
    simp only
    rw [commitStack_fold e.max_history txs e.history.undo_stack (by rw [hstart]; simp)]
    rw [hstart]
    simp only [List.nil_append, List.length_nil, Nat.zero_add]
    rw [hlen]
    have : e.max_history + k - e.max_history = k := by omega
    rw [this]
  · rw [commitMany_spec txs e hne (by rw [hstart]; simp) (by intro h; rw [h] at hlen; simp at hlen; omega)]
    simp only
    rw [commitStack_fold e.max_history txs e.history.undo_stack (by rw [hstart]; simp)]
    rw [hstart]
    simp only [List.nil_append, List.length_nil, Nat.zero_add, List.length_drop]
    omega
  · intro e2 h2
    simp [tx_undo, h2]

/-- C3 witness: max_history = 2, three one-op transactions committed;
the retained stack is the last two, and undo on an empty stack is a
no-op. -/
theorem C3_commit_bounded_history_witness :
    (commitMany [⟨"t1", [.insertSubcal 0 (mkSubcal "c" "c" [])]⟩,
                 ⟨"t2", [.insertSubcal 0 (mkSubcal "c" "c" [])]⟩,
                 ⟨"t3", [.insertSubcal 0 (mkSubcal "c" "c" [])]⟩]
        ⟨[], ⟨[], [], some ⟨"t0", []⟩⟩, emptyRegisters, 2⟩).history.undo_stack
      = [⟨"t2", [.insertSubcal 0 (mkSubcal "c" "c" [])]⟩,
         ⟨"t3", [.insertSubcal 0 (mkSubcal "c" "c" [])]⟩] := by
  have h := (C3_commit_bounded_history
    ⟨[], ⟨[], [], some ⟨"t0", []⟩⟩, emptyRegisters, 2⟩ ⟨"t0", []⟩
    [⟨"t1", [.insertSubcal 0 (mkSubcal "c" "c" [])]⟩,
     ⟨"t2", [.insertSubcal 0 (mkSubcal "c" "c" [])]⟩,
     ⟨"t3", [.insertSubcal 0 (mkSubcal "c" "c" [])]⟩] 1
    rfl rfl (by decide) rfl (by decide)).2.2.1
  simpa using h

/-! ## C5: register write contract -/

theorem regGet_regSet_self (rf : RegisterFile) (k : String) (v : List RegisterPayload)
    (h : regHasKey rf k = true) : regGet (regSet rf k v) k = v := by
  induction rf with
  | nil => simp [regHasKey, regGet] at h
  | cons kv rest ih =>
    by_cases hk : kv.1 = k
    · simp [regGet, regSet, List.find?_cons, hk]
    · have h' : regHasKey rest k = true := by
        simpa [regHasKey, List.find?_cons, hk] using h
      simpa [regGet, regSet, List.find?_cons, hk] using ih h'

theorem regGet_regSet_ne (rf : RegisterFile) (k : String) (v : List RegisterPayload)
    (k' : String) (h : k' ≠ k) : regGet (regSet rf k v) k' = regGet rf k' := by
  induction rf with
  | nil => rfl
  | cons kv rest ih =>
    by_cases hk : kv.1 = k
    · have hne : ¬ kv.1 = k' := by rw [hk]; exact fun hh => h hh.symm
      have hkk : ¬ (k = k') := fun hh => h hh.symm
      simp [regGet, regSet, List.find?_cons, hk, hne, hkk]
    · by_cases hk' : kv.1 = k'
      · have hk2 : ¬ (k' = k) := by rw [← hk']; exact hk
        simp [regGet, regSet, List.find?_cons, hk, hk', hk2]
      · simpa [regGet, regSet, List.find?_cons, hk, hk'] using ih

theorem regHasKey_regSet (rf : RegisterFile) (k : String) (v : List RegisterPayload)
    (k' : String) : regHasKey (regSet rf k v) k' = regHasKey rf k' := by
  induction rf with
  | nil => rfl
  | cons kv rest ih =>
    by_cases hk : kv.1 = k
    · by_cases hk' : kv.1 = k'
      · simp [regHasKey, regSet, List.find?_cons, hk, hk', hk ▸ hk']
      · have : ¬ (k = k') := by rw [hk] at hk'; exact hk'
        simp [regHasKey, regSet, List.find?_cons, hk, hk', this]
    · by_cases hk' : kv.1 = k'
      · have hk2 : ¬ (k' = k) := by rw [← hk']; exact hk
        simp [regHasKey, regSet, List.find?_cons, hk, hk', hk2]
      · simpa [regHasKey, regSet, List.find?_cons, hk, hk'] using ih

theorem toLower_upper_bounds (c : Char) (h1 : 'A' ≤ c) (h2 : c ≤ 'Z') :
    97 ≤ c.toLower.toNat ∧ c.toLower.toNat ≤ 122 := by
  have hA : 65 ≤ c.toNat := by simpa [Char.le_def, Char.toNat] using h1
  have hZ : c.toNat ≤ 90 := by simpa [Char.le_def, Char.toNat] using h2
  have hvalid : (c.toNat + 32).isValidChar := by
    constructor
    omega
  have hlow : c.toLower = Char.ofNat (c.toNat + 32) := by
    simp [Char.toLower]
    omega
  rw [hlow]
  have : (Char.ofNat (c.toNat + 32)).toNat = c.toNat + 32 := by
    simp only [Char.ofNat, hvalid, dif_pos]
    rfl
  omega

/-- `normalize_regname` either returns the name unchanged with no
append, or (for a single upper-case letter) a single lower-case letter
with append. -/
theorem normalize_regname_spec (r : String) :
    normalize_regname r = (r, false)
    ∨ ∃ c : Char, 97 ≤ c.toNat ∧ c.toNat ≤ 122 ∧ normalize_regname r = (⟨[c]⟩, true) := by
  rcases hd : r.data with _ | ⟨c, _ | ⟨d, cs⟩⟩
  · left; simp [normalize_regname, hd]
  · by_cases hc : ('A' ≤ c && c ≤ 'Z') = true
    · right
      rcases Bool.and_eq_true _ _ ▸ hc with ⟨hcA, hcZ⟩
      have hA : 'A' ≤ c := of_decide_eq_true hcA
      have hZ : c ≤ 'Z' := of_decide_eq_true hcZ
      exact ⟨c.toLower, (toLower_upper_bounds c hA hZ).1, (toLower_upper_bounds c hA hZ).2,
        by simp [normalize_regname, hd, hc]⟩
    · left; simp [normalize_regname, hd, hc]
  · left; simp [normalize_regname, hd]

/-- A single lower-case letter is not one of the special register keys. -/
theorem lower_letter_ne_special (c : Char) (h1 : 97 ≤ c.toNat) (k : String)
    (hk : ∀ ch ∈ k.data, ch.toNat < 97) : (⟨[c]⟩ : String) ≠ k := by
  intro h
  cases k with
  | mk data =>
    cases h
    have := hk c (by simp)
    omega

theorem regGet_writeNamed_ne (rf : RegisterFile) (norm : String × Bool)
    (p : List RegisterPayload) (k : String) (hk : norm.1 ≠ k) :
    regGet (writeNamed rf norm p) k = regGet rf k := by
  unfold writeNamed
  by_cases h1 : regHasKey rf norm.1 = true <;> by_cases h2 : norm.2 = true <;>
    simp [h1, h2, regGet_regSet_ne _ _ _ _ (Ne.symm hk)]

theorem regHasKey_writeChain (rf : RegisterFile) (p : List RegisterPayload) (rot : Bool)
    (k : String) :
    regHasKey (writeRotate (writeYank (writeUnnamed rf p) p rot) p rot) k = regHasKey rf k := by
  cases rot <;> simp [writeRotate, writeYank, writeUnnamed, rotateNumbered, regHasKey_regSet]

theorem writeChain_get_unnamed (rf : RegisterFile) (p : List RegisterPayload) (rot : Bool)
    (hq : regHasKey rf "\"" = true) :
    regGet (writeRotate (writeYank (writeUnnamed rf p) p rot) p rot) "\"" = p := by
  cases rot <;>
    simp [writeRotate, writeYank, writeUnnamed, rotateNumbered,
      regGet_regSet_ne, regGet_regSet_self, regHasKey_regSet, hq]

theorem writeChain_get_zero (rf : RegisterFile) (p : List RegisterPayload)
    (h0 : regHasKey rf "0" = true) :
    regGet (writeRotate (writeYank (writeUnnamed rf p) p false) p false) "0" = p := by
  simp [writeRotate, writeYank, writeUnnamed,
    regGet_regSet_ne, regGet_regSet_self, regHasKey_regSet, h0]

theorem writeChain_get_one (rf : RegisterFile) (p : List RegisterPayload)
    (h1 : regHasKey rf "1" = true) :
    regGet (writeRotate (writeYank (writeUnnamed rf p) p true) p true) "1" = p := by
  simp [writeRotate, writeYank, writeUnnamed, rotateNumbered,
    regGet_regSet_ne, regGet_regSet_self, regHasKey_regSet, h1]

theorem writeChain_get_shift (rf : RegisterFile) (p : List RegisterPayload)
    (hks : ∀ k, regHasKey rf k = regHasKey emptyRegisters k) :
    ∀ pr ∈ [("2", "1"), ("3", "2"), ("4", "3"), ("5", "4"), ("6", "5"),
        ("7", "6"), ("8", "7"), ("9", "8")],
      regGet (writeRotate (writeYank (writeUnnamed rf p) p true) p true) pr.1
        = regGet rf pr.2 := by
  have h2 : regHasKey rf "2" = true := by rw [hks]; decide
  have h3 : regHasKey rf "3" = true := by rw [hks]; decide
  have h4 : regHasKey rf "4" = true := by rw [hks]; decide
  have h5 : regHasKey rf "5" = true := by rw [hks]; decide
  have h6 : regHasKey rf "6" = true := by rw [hks]; decide
  have h7 : regHasKey rf "7" = true := by rw [hks]; decide
  have h8 : regHasKey rf "8" = true := by rw [hks]; decide
  have h9 : regHasKey rf "9" = true := by rw [hks]; decide
  intro pr hpr
  fin_cases hpr <;>
    simp [writeRotate, writeYank, writeUnnamed, rotateNumbered,
      regGet_regSet_ne, regGet_regSet_self, regHasKey_regSet,
      h2, h3, h4, h5, h6, h7, h8, h9]

theorem regGet_writeNamed_special (rf2 : RegisterFile) (r : String)
    (p : List RegisterPayload) (K : String)
    (hKlow : ∀ ch ∈ K.data, ch.toNat < 97)
    (hkey : regHasKey rf2 K = true) (hget : regGet rf2 K = p) :
    regGet (writeNamed rf2 (normalize_regname r) p) K = p := by
  rcases normalize_regname_spec r with hn | ⟨c, hc1, _, hn⟩
  · by_cases hr : r = K
    · rw [hn, hr]
      unfold writeNamed
      simp only
      rw [if_pos hkey, if_neg (by simp)]
      exact regGet_regSet_self _ _ _ hkey
    · rw [hn, regGet_writeNamed_ne _ _ _ _ (by simpa using hr)]
      exact hget
  · rw [hn, regGet_writeNamed_ne _ _ _ _ (lower_letter_ne_special c hc1 K hKlow)]
    exact hget

/-- C5 counterexample: the claim quantifies over every call, but the
register explicitly named by `regname` is written after the rotation.
With register 2 holding A's payload, `write("3", [B], rotate=True)`
leaves register 3 holding B's payload — not the shifted copy of register
2 that the claim's "9←8…2←1" clause demands. -/
theorem C5_register_write_counterexample :
    regGet (Register_write (Register_write emptyRegisters "2"
        [mkTask "a" "A" 0 false (some "c")] false) "3"
        [mkTask "b" "B" 0 false (some "c")] true) "3"
      = [calitem_to_register (mkTask "b" "B" 0 false (some "c"))]
    ∧ regGet (Register_write emptyRegisters "2"
        [mkTask "a" "A" 0 false (some "c")] false) "2"
      = [calitem_to_register (mkTask "a" "A" 0 false (some "c"))]
    ∧ regGet (Register_write (Register_write emptyRegisters "2"
        [mkTask "a" "A" 0 false (some "c")] false) "3"
        [mkTask "b" "B" 0 false (some "c")] true) "3"
      ≠ regGet (Register_write emptyRegisters "2"
        [mkTask "a" "A" 0 false (some "c")] false) "2" := by
  refine ⟨by decide, by decide, by decide⟩

/-- C5 (amended): for every `Register.write(regname, items, rotate)`
with `regname` not the black hole, on a register file with the standard
key set: the unnamed register is set to the payload snapshots; if
`rotate = false` register 0 is also set to them; if `rotate = true`
register 1 receives them and each numbered register 2–9 receives the
previous content of the register below it — except the register that
`regname` itself (after normalization) names, which is overwritten with
the payloads after the rotation.  Deleting A, then B, then C into the
default register leaves 1=C, 2=B, 3=A and unnamed=C. -/
theorem C5_register_write_amended (rf : RegisterFile) (regname : String)
    (items : List Item) (rotate : Bool)
    (hbh : regname ≠ "_")
    (hks : ∀ k, regHasKey rf k = regHasKey emptyRegisters k) :
    (regGet (Register_write rf regname items rotate) "\""
        = items.map calitem_to_register)
    ∧ (rotate = false →
        regGet (Register_write rf regname items rotate) "0"
          = items.map calitem_to_register)
    ∧ (rotate = true →
        regGet (Register_write rf regname items rotate) "1"
          = items.map calitem_to_register)
    ∧ (rotate = true →
        ∀ pr ∈ [("2", "1"), ("3", "2"), ("4", "3"), ("5", "4"), ("6", "5"),
            ("7", "6"), ("8", "7"), ("9", "8")],
          (normalize_regname regname).1 ≠ pr.1 →
            regGet (Register_write rf regname items rotate) pr.1 = regGet rf pr.2)
    ∧ ((regGet (Register_write (Register_write (Register_write emptyRegisters "\""
          [mkTask "a" "A" 0 false (some "c")] true) "\""
          [mkTask "b" "B" 0 false (some "c")] true) "\""
          [mkTask "c" "C" 0 false (some "c")] true) "1"
        = [calitem_to_register (mkTask "c" "C" 0 false (some "c"))])
      ∧ (regGet (Register_write (Register_write (Register_write emptyRegisters "\""
          [mkTask "a" "A" 0 false (some "c")] true) "\""
          [mkTask "b" "B" 0 false (some "c")] true) "\""
          [mkTask "c" "C" 0 false (some "c")] true) "2"
        = [calitem_to_register (mkTask "b" "B" 0 false (some "c"))])
      ∧ (regGet (Register_write (Register_write (Register_write emptyRegisters "\""
          [mkTask "a" "A" 0 false (some "c")] true) "\""
          [mkTask "b" "B" 0 false (some "c")] true) "\""
          [mkTask "c" "C" 0 false (some "c")] true) "3"
        = [calitem_to_register (mkTask "a" "A" 0 false (some "c"))])
      ∧ (regGet (Register_write (Register_write (Register_write emptyRegisters "\""
          [mkTask "a" "A" 0 false (some "c")] true) "\""
          [mkTask "b" "B" 0 false (some "c")] true) "\""
          [mkTask "c" "C" 0 false (some "c")] true) "\""
        = [calitem_to_register (mkTask "c" "C" 0 false (some "c"))])) := by
  have hW : Register_write rf regname items rotate
      = writeNamed (writeRotate (writeYank (writeUnnamed rf (items.map calitem_to_register))
          (items.map calitem_to_register) rotate) (items.map calitem_to_register) rotate)
        (normalize_regname regname) (items.map calitem_to_register) := by
    simp [Register_write, hbh]
  refine ⟨?_, ?_, ?_, ?_, by decide, by decide, by decide, by decide⟩
  · rw [hW]
    refine regGet_writeNamed_special _ _ _ _ (by decide) ?_ ?_
    · rw [regHasKey_writeChain, hks]
      decide
    · exact writeChain_get_unnamed rf _ rotate (by rw [hks]; decide)
  · intro hrot
    subst hrot
    rw [hW]
    refine regGet_writeNamed_special _ _ _ _ (by decide) ?_ ?_
    · rw [regHasKey_writeChain, hks]
      decide
    · exact writeChain_get_zero rf _ (by rw [hks]; decide)
  · intro hrot
    subst hrot
    rw [hW]
    refine regGet_writeNamed_special _ _ _ _ (by decide) ?_ ?_
    · rw [regHasKey_writeChain, hks]
      decide
    · exact writeChain_get_one rf _ (by rw [hks]; decide)
  · intro hrot pr hpr hne
    subst hrot
    rw [hW, regGet_writeNamed_ne _ _ _ _ hne]
    exact writeChain_get_shift rf _ hks pr hpr

/-- C5 witness: the amended contract applied to a delete of one item
into the unnamed register on a fresh register file. -/
theorem C5_register_write_amended_witness :
    regGet (Register_write emptyRegisters "\"" [mkTask "a" "A" 0 false (some "c")] true) "\""
      = [calitem_to_register (mkTask "a" "A" 0 false (some "c"))]
    ∧ regGet (Register_write emptyRegisters "\"" [mkTask "a" "A" 0 false (some "c")] true) "1"
      = [calitem_to_register (mkTask "a" "A" 0 false (some "c"))]
    ∧ regGet (Register_write emptyRegisters "\"" [mkTask "a" "A" 0 false (some "c")] true) "5"
      = regGet emptyRegisters "4" :=
  ⟨(C5_register_write_amended emptyRegisters "\"" [mkTask "a" "A" 0 false (some "c")] true
      (by decide) (fun k => rfl)).1,
   (C5_register_write_amended emptyRegisters "\"" [mkTask "a" "A" 0 false (some "c")] true
      (by decide) (fun k => rfl)).2.2.1 rfl,
   (C5_register_write_amended emptyRegisters "\"" [mkTask "a" "A" 0 false (some "c")] true
      (by decide) (fun k => rfl)).2.2.2.1 rfl ("5", "4") (by decide) (by decide)⟩

/-- The transaction-layer calls only touch the entity model and the
active transaction: undo stack, redo stack, registers and the history
bound all pass through unchanged. -/
theorem record_frame (e e2 : Editor) (op : Op) (h : record e op = .ok e2) :
    e2.history.undo_stack = e.history.undo_stack
    ∧ e2.history.redo_stack = e.history.redo_stack
    ∧ e2.registers = e.registers
    ∧ e2.max_history = e.max_history := by
  unfold record at h
  cases hct : e.history.current_tx with
  | none => rw [hct] at h; cases h
  | some tx => rw [hct] at h; cases h; exact ⟨rfl, rfl, rfl, rfl⟩

theorem runTxCall_frame (c : TxCall) (e e' : Editor) (h : runTxCall c e = .ok e') :
    e'.history.undo_stack = e.history.undo_stack
    ∧ e'.history.redo_stack = e.history.redo_stack
    ∧ e'.registers = e.registers
    ∧ e'.max_history = e.max_history := by
  cases c with
  | setItemAttr uid attr v =>
    simp only [runTxCall, tx_set_item_attr] at h
    cases hit : get_item_by_uid e.subcalendars uid with
    | none => simp only [hit] at h; cases h
    | some item =>
      simp only [hit] at h
      by_cases hold : getAttr item attr = v
      · rw [if_pos hold] at h; cases h; exact ⟨rfl, rfl, rfl, rfl⟩
      · rw [if_neg hold] at h
        cases hr : record e (.setItemAttr uid attr (getAttr item attr) v) with
        | exn m s => simp only [hr] at h; cases h
        | ok e2 =>
          simp only [hr] at h
          cases hm : setItemAttrModel uid attr v e2.subcalendars with
          | none => simp only [hm] at h; cases h
          | some m2 => simp only [hm] at h; cases h; exact record_frame e e2 _ hr
  | insertItem scUid item =>
    simp only [runTxCall, tx_insert_item] at h
    by_cases hpar : item.parent_subcal ≠ none
    · rw [if_pos hpar] at h; cases h
    · rw [if_neg hpar] at h
      cases hsc : get_subcal_by_uid e.subcalendars scUid with
      | none => simp only [hsc] at h; cases h
      | some sc =>
        simp only [hsc] at h
        cases hr : record e (.insertItem scUid item) with
        | exn m s => simp only [hr] at h; cases h
        | ok e2 =>
          simp only [hr] at h
          cases hm : insertItemModel scUid item e2.subcalendars with
          | none => simp only [hm] at h; cases h
          | some m2 => simp only [hm] at h; cases h; exact record_frame e e2 _ hr
  | removeItem uid =>
    simp only [runTxCall, tx_remove_item] at h
    cases hit : get_item_by_uid e.subcalendars uid with
    | none => simp only [hit] at h; cases h
    | some item =>
      simp only [hit] at h
      cases hp : item.parent_subcal with
      | none => simp only [hp] at h; cases h
      | some scUid =>
        simp only [hp] at h
        cases hr : record e (.removeItem scUid item) with
        | exn m s => simp only [hr] at h; cases h
        | ok e2 =>
          simp only [hr] at h
          cases hm : removeItemModel scUid uid e2.subcalendars with
          | none => simp only [hm] at h; cases h
          | some m2 => simp only [hm] at h; cases h; exact record_frame e e2 _ hr
  | moveItem uid dstUid =>
    simp only [runTxCall, tx_move_item] at h
    cases hit : get_item_by_uid e.subcalendars uid with
    | none => simp only [hit] at h; cases h
    | some item =>
      simp only [hit] at h
      cases hp : item.parent_subcal with
      | none => simp only [hp] at h; cases h
      | some srcUid =>
        simp only [hp] at h
        by_cases heqd : srcUid = dstUid
        · rw [if_pos heqd] at h; cases h
        · rw [if_neg heqd] at h
          cases hd : get_subcal_by_uid e.subcalendars dstUid with
          | none => simp only [hd] at h; cases h
          | some dsc =>
            simp only [hd] at h
            cases hr : record e (.moveItem uid srcUid dstUid) with
            | exn m s => simp only [hr] at h; cases h
            | ok e2 =>
              simp only [hr] at h
              cases hm : moveItemModel uid srcUid dstUid e2.subcalendars with
              | none => simp only [hm] at h; cases h
              | some m2 => simp only [hm] at h; cases h; exact record_frame e e2 _ hr
  | setSubcalAttr uid attr v =>
    simp only [runTxCall, tx_set_subcal_attr] at h
    cases hsc : get_subcal_by_uid e.subcalendars uid with
    | none => simp only [hsc] at h; cases h
    | some sc =>
      simp only [hsc] at h
      by_cases hold : getSubcalAttr sc attr = v
      · rw [if_pos hold] at h; cases h; exact ⟨rfl, rfl, rfl, rfl⟩
      · rw [if_neg hold] at h
        cases hr : record e (.setSubcalAttr uid attr (getSubcalAttr sc attr) v) with
        | exn m s => simp only [hr] at h; cases h
        | ok e2 =>
          simp only [hr] at h
          cases hm : setSubcalAttrModel uid attr v e2.subcalendars with
          | none => simp only [hm] at h; cases h
          | some m2 => simp only [hm] at h; cases h; exact record_frame e e2 _ hr
  | insertSubcal sc =>
    simp only [runTxCall, tx_insert_subcal] at h
    by_cases hdup : e.subcalendars.any (fun s => s.uid = sc.uid) = true
    · rw [if_pos hdup] at h; cases h
    · rw [if_neg hdup] at h
      cases hr : record e (.insertSubcal e.subcalendars.length sc) with
      | exn m s => simp only [hr] at h; cases h
      | ok e2 => simp only [hr] at h; cases h; exact record_frame e e2 _ hr
  | removeSubcal uid =>
    simp only [runTxCall, tx_remove_subcal] at h
    cases hsc : get_subcal_by_uid e.subcalendars uid with
    | none => simp only [hsc] at h; cases h
    | some sc =>
      simp only [hsc] at h
      cases hr : record e (.removeSubcal (e.subcalendars.findIdx (fun s => s.uid = uid)) sc) with
      | exn m s => simp only [hr] at h; cases h
      | ok e2 =>
        simp only [hr] at h
        cases hm : removeSubcalValue uid e2.subcalendars with
        | none => simp only [hm] at h; cases h
        | some m2 => simp only [hm] at h; cases h; exact record_frame e e2 _ hr

theorem runTxCalls_frame (calls : List TxCall) (e e' : Editor)
    (h : runTxCalls calls e = .ok e') :
    e'.history.undo_stack = e.history.undo_stack
    ∧ e'.history.redo_stack = e.history.redo_stack
    ∧ e'.registers = e.registers
    ∧ e'.max_history = e.max_history := by
  induction calls generalizing e with
  | nil =>
    simp only [runTxCalls] at h
    cases h
    exact ⟨rfl, rfl, rfl, rfl⟩
  | cons c cs ih =>
    simp only [runTxCalls] at h
    cases hc : runTxCall c e with
    | exn m s => rw [hc] at h; cases h
    | ok e1 =>
      rw [hc] at h
      rcases runTxCall_frame c e e1 hc with ⟨h1, h2, h3, h4⟩
      rcases ih e1 h with ⟨g1, g2, g3, g4⟩
      exact ⟨g1.trans h1, g2.trans h2, g3.trans h3, g4.trans h4⟩

/-- C2 counterexample: a two-item subcalendar, a transaction block that
removes one item and then faults.  After the rollback performed by the
block, the removed item is still gone: the entity model does not equal
its state at `begin_transaction` (the claim's "none of that
transaction's ops are observably applied" is false), although the undo
and redo stacks are unchanged and nothing was recorded. -/
theorem C2_transaction_atomicity_counterexample :
    transaction_block "del" (faultingBody [.removeItem "t1"] "simulated fault")
        (mkEditor [mkSubcal "c" "cal" [mkTask "t1" "a" 0 false (some "c"),
          mkTask "t2" "b" 0 false (some "c")]] emptyHistory)
      = .exn "simulated fault"
        (mkEditor [mkSubcal "c" "cal" [mkTask "t2" "b" 0 false (some "c")]] emptyHistory)
    ∧ ([mkSubcal "c" "cal" [mkTask "t2" "b" 0 false (some "c")]] : Model)
      ≠ [mkSubcal "c" "cal" [mkTask "t1" "a" 0 false (some "c"),
          mkTask "t2" "b" 0 false (some "c")]] :=
  ⟨by decide, by decide⟩

/-- C2 (amended): when an exception is raised inside a transaction block
after some ops succeeded, the block rolls back by discarding the active
transaction and re-raising: nothing is pushed, the undo stack, redo
stack, registers and bound are exactly as at `begin_transaction`, and no
transaction remains active — but the ops already applied are NOT
reverted: the entity model is the one at the fault point. -/
theorem C2_transaction_atomicity_amended (e : Editor) (calls : List TxCall)
    (label msg : String) (e1 : Editor)
    (hidle : e.history.current_tx = none)
    (hrun : runTxCalls calls
        { e with history := { e.history with current_tx := some ⟨label, []⟩ } } = .ok e1) :
    transaction_block label (faultingBody calls msg) e
      = .exn msg { e1 with history := { e1.history with current_tx := none } }
    ∧ e1.history.undo_stack = e.history.undo_stack
    ∧ e1.history.redo_stack = e.history.redo_stack
    ∧ e1.registers = e.registers
    ∧ e1.max_history = e.max_history := by
  have hbegin : begin_transaction e label
      = .ok { e with history := { e.history with current_tx := some ⟨label, []⟩ } } := by
    simp [begin_transaction, hidle]
  have hframe := runTxCalls_frame calls _ e1 hrun
  refine ⟨?_, hframe.1, hframe.2.1, hframe.2.2.1, hframe.2.2.2⟩
  simp only [transaction_block, hbegin, faultingBody, hrun, rollback_transaction]

/-- C2 witness: the amended behaviour at the counterexample's input. -/
theorem C2_transaction_atomicity_amended_witness :
    transaction_block "del" (faultingBody [.removeItem "t1"] "simulated fault")
        (mkEditor [mkSubcal "c" "cal" [mkTask "t1" "a" 0 false (some "c"),
          mkTask "t2" "b" 0 false (some "c")]] emptyHistory)
      = .exn "simulated fault"
        { (mkEditor [mkSubcal "c" "cal" [mkTask "t2" "b" 0 false (some "c")]]
            ⟨[], [], some ⟨"del", [.removeItem "c" (mkTask "t1" "a" 0 false (some "c"))]⟩⟩) with
          history := { (⟨[], [], some ⟨"del", [.removeItem "c" (mkTask "t1" "a" 0 false (some "c"))]⟩⟩ : History) with
            current_tx := none } } :=
  (C2_transaction_atomicity_amended
    (mkEditor [mkSubcal "c" "cal" [mkTask "t1" "a" 0 false (some "c"),
      mkTask "t2" "b" 0 false (some "c")]] emptyHistory)
    [.removeItem "t1"] "del" "simulated fault"
    (mkEditor [mkSubcal "c" "cal" [mkTask "t2" "b" 0 false (some "c")]]
      ⟨[], [], some ⟨"del", [.removeItem "c" (mkTask "t1" "a" 0 false (some "c"))]⟩⟩)
    rfl (by decide)).1

theorem sortedModelB_iff (m : Model) :
    SortedModelB m = true ↔ ∀ sc ∈ m, ItemsSorted sc.items := by
  simp only [SortedModelB, List.all_eq_true]
  constructor
  · intro h sc hsc
    exact (pairwiseB_iff itemLe sc.items).mp (h sc hsc)
  · intro h sc hsc
    exact (pairwiseB_iff itemLe sc.items).mpr (h sc hsc)

theorem sortedModel_update (m : Model) (scUid : String) (f : List Item → List Item)
    (hm : ∀ sc ∈ m, ItemsSorted sc.items) (hf : ∀ l, ItemsSorted (f l)) :
    ∀ sc ∈ updateSubcalItems m scUid f, ItemsSorted sc.items := by
  intro sc hsc
  simp only [updateSubcalItems, List.mem_map] at hsc
  rcases hsc with ⟨sc0, hsc0, heq⟩
  by_cases h : sc0.uid = scUid
  · rw [← heq, if_pos h]
    exact hf sc0.items
  · rw [← heq, if_neg h]
    exact hm sc0 hsc0

theorem insertItemModel_sorted (scUid : String) (item : Item) (m m' : Model)
    (h : insertItemModel scUid item m = some m')
    (hm : ∀ sc ∈ m, ItemsSorted sc.items) : ∀ sc ∈ m', ItemsSorted sc.items := by
  unfold insertItemModel at h
  cases hsc : get_subcal_by_uid m scUid with
  | none => rw [hsc] at h; cases h
  | some sc0 =>
    rw [hsc] at h
    cases h
    exact sortedModel_update m scUid _ hm (fun l => sortItems_pairwise _)

theorem removeItemModel_sorted (scUid uid : String) (m m' : Model)
    (h : removeItemModel scUid uid m = some m')
    (hm : ∀ sc ∈ m, ItemsSorted sc.items) : ∀ sc ∈ m', ItemsSorted sc.items := by
  unfold removeItemModel at h
  cases hsc : get_subcal_by_uid m scUid with
  | none => rw [hsc] at h; cases h
  | some sc0 =>
    simp only [hsc] at h
    by_cases hany : (sc0.items.any (fun it => it.uid = uid)) = true
    · rw [if_pos hany] at h
      cases h
      exact sortedModel_update m scUid _ hm (fun l => sortItems_pairwise _)
    · rw [if_neg hany] at h
      cases h

theorem moveItemModel_sorted (uid srcUid dstUid : String) (m m' : Model)
    (h : moveItemModel uid srcUid dstUid m = some m')
    (hm : ∀ sc ∈ m, ItemsSorted sc.items) : ∀ sc ∈ m', ItemsSorted sc.items := by
  unfold moveItemModel at h
  cases hit : get_item_by_uid m uid with
  | none => rw [hit] at h; cases h
  | some item =>
    rw [hit] at h
    cases hsrc : get_subcal_by_uid m srcUid with
    | none => rw [hsrc] at h; cases h
    | some src =>
      rw [hsrc] at h
      cases hdst : get_subcal_by_uid m dstUid with
      | none => rw [hdst] at h; cases h
      | some dst =>
        simp only [hit, hsrc, hdst] at h
        by_cases hany : (src.items.any (fun it => it.uid = uid)) = true
        · rw [if_pos hany] at h
          cases h
          exact sortedModel_update _ dstUid _
            (sortedModel_update m srcUid _ hm (fun l => sortItems_pairwise _))
            (fun l => sortItems_pairwise _)
        · rw [if_neg hany] at h
          cases h

theorem record_subcal (e e2 : Editor) (op : Op) (h : record e op = .ok e2) :
    e2.subcalendars = e.subcalendars := by
  unfold record at h
  cases hct : e.history.current_tx with
  | none => rw [hct] at h; cases h
  | some tx => rw [hct] at h; cases h; rfl

theorem txCall_structural_sorted (c : TxCall) (e e' : Editor)
    (hst : isStructuralCall c = true) (h : runTxCall c e = .ok e')
    (hm : SortedModelB e.subcalendars = true) : SortedModelB e'.subcalendars = true := by
  rw [sortedModelB_iff] at hm ⊢
  cases c with
  | setItemAttr uid attr v => simp [isStructuralCall] at hst
  | setSubcalAttr uid attr v => simp [isStructuralCall] at hst
  | insertSubcal sc => simp [isStructuralCall] at hst
  | removeSubcal uid => simp [isStructuralCall] at hst
  | insertItem scUid item =>
    simp only [runTxCall, tx_insert_item] at h
    by_cases hpar : item.parent_subcal ≠ none
    · rw [if_pos hpar] at h; cases h
    · rw [if_neg hpar] at h
      cases hsc : get_subcal_by_uid e.subcalendars scUid with
      | none => simp only [hsc] at h; cases h
      | some sc =>
        simp only [hsc] at h
        cases hr : record e (.insertItem scUid item) with
        | exn m s => simp only [hr] at h; cases h
        | ok e2 =>
          simp only [hr] at h
          cases hmod : insertItemModel scUid item e2.subcalendars with
          | none => simp only [hmod] at h; cases h
          | some m2 =>
            simp only [hmod] at h
            cases h
            rw [record_subcal e e2 _ hr] at hmod
            exact insertItemModel_sorted scUid item _ _ hmod hm
  | removeItem uid =>
    simp only [runTxCall, tx_remove_item] at h
    cases hit : get_item_by_uid e.subcalendars uid with
    | none => simp only [hit] at h; cases h
    | some item =>
      simp only [hit] at h
      cases hp : item.parent_subcal with
      | none => simp only [hp] at h; cases h
      | some scUid =>
        simp only [hp] at h
        cases hr : record e (.removeItem scUid item) with
        | exn m s => simp only [hr] at h; cases h
        | ok e2 =>
          simp only [hr] at h
          cases hmod : removeItemModel scUid uid e2.subcalendars with
          | none => simp only [hmod] at h; cases h
          | some m2 =>
            simp only [hmod] at h
            cases h
            rw [record_subcal e e2 _ hr] at hmod
            exact removeItemModel_sorted scUid uid _ _ hmod hm
  | moveItem uid dstUid =>
    simp only [runTxCall, tx_move_item] at h
    cases hit : get_item_by_uid e.subcalendars uid with
    | none => simp only [hit] at h; cases h
    | some item =>
      simp only [hit] at h
      cases hp : item.parent_subcal with
      | none => simp only [hp] at h; cases h
      | some srcUid =>
        simp only [hp] at h
        by_cases heqd : srcUid = dstUid
        · rw [if_pos heqd] at h; cases h
        · rw [if_neg heqd] at h
          cases hd : get_subcal_by_uid e.subcalendars dstUid with
          | none => simp only [hd] at h; cases h
          | some dsc =>
            simp only [hd] at h
            cases hr : record e (.moveItem uid srcUid dstUid) with
            | exn m s => simp only [hr] at h; cases h
            | ok e2 =>
              simp only [hr] at h
              cases hmod : moveItemModel uid srcUid dstUid e2.subcalendars with
              | none => simp only [hmod] at h; cases h
              | some m2 =>
                simp only [hmod] at h
                cases h
                rw [record_subcal e e2 _ hr] at hmod
                exact moveItemModel_sorted uid srcUid dstUid _ _ hmod hm

theorem opStep_structural_sorted (op : Op) (m m' : Model)
    (hst : isStructuralOp op = true)
    (h : Op.apply op m = some m' ∨ Op.revert op m = some m')
    (hm : ∀ sc ∈ m, ItemsSorted sc.items) : ∀ sc ∈ m', ItemsSorted sc.items := by
  cases op with
  | setItemAttr uid attr o n => simp [isStructuralOp] at hst
  | setSubcalAttr uid attr o n => simp [isStructuralOp] at hst
  | insertSubcal i sc => simp [isStructuralOp] at hst
  | removeSubcal i sc => simp [isStructuralOp] at hst
  | insertItem scUid item =>
    rcases h with h | h
    · exact insertItemModel_sorted scUid item m m' h hm
    · exact removeItemModel_sorted scUid item.uid m m' h hm
  | removeItem scUid item =>
    rcases h with h | h
    · exact removeItemModel_sorted scUid item.uid m m' h hm
    · exact insertItemModel_sorted scUid item m m' h hm
  | moveItem uid src dst =>
    rcases h with h | h
    · exact moveItemModel_sorted uid src dst m m' h hm
    · exact moveItemModel_sorted uid dst src m m' h hm

/-- C7: along every sequence of item insertions, removals and moves done
through the transaction layer — and of the apply/revert replays of those
ops during redo/undo — every subcalendar's items list stays sorted by
`(sort_date, type_rank, lowercased name)`; and on equal dates an Event
(rank 0) sorts strictly before a Task (rank 1), whatever their names. -/
theorem C7_sort_invariant :
    (∀ (steps : List SortStep) (e e' : Editor),
      (∀ s ∈ steps, isStructuralStep s = true) →
      runSortSteps steps e = some e' →
      SortedModelB e.subcalendars = true → SortedModelB e'.subcalendars = true)
    ∧ (∀ ev t : Item, ev.kind = .event → t.kind = .task → ev.sort_date = t.sort_date →
        itemLe ev t = true ∧ itemLe t ev = false) := by
  constructor
  · intro steps
    induction steps with
    | nil =>
      intro e e' _ h hm
      cases h
      exact hm
    | cons s ss ih =>
      intro e e' hall h hm
      simp only [runSortSteps] at h
      cases hs : runSortStep s e with
      | none => rw [hs] at h; cases h
      | some e1 =>
        rw [hs] at h
        refine ih e1 e' (fun x hx => hall x (by simp [hx])) h ?_
        have hst := hall s (by simp)
        cases s with
        | call c =>
          simp only [runSortStep] at hs
          cases hc : runTxCall c e with
          | exn msg st => rw [hc] at hs; cases hs
          | ok e2 =>
            rw [hc] at hs
            cases hs
            exact txCall_structural_sorted c e e1 hst hc hm
        | applyStep op =>
          simp only [runSortStep] at hs
          cases ha : Op.apply op e.subcalendars with
          | none => rw [ha] at hs; cases hs
          | some m2 =>
            rw [ha] at hs
            cases hs
            rw [sortedModelB_iff] at hm ⊢
            exact opStep_structural_sorted op _ _ hst (Or.inl ha) hm
        | revertStep op =>
          simp only [runSortStep] at hs
          cases ha : Op.revert op e.subcalendars with
          | none => rw [ha] at hs; cases hs
          | some m2 =>
            rw [ha] at hs
            cases hs
            rw [sortedModelB_iff] at hm ⊢
            exact opStep_structural_sorted op _ _ hst (Or.inr ha) hm
  · intro ev t hev ht hd
    constructor
    · simp only [itemLe, keyLe, Item.sort_key, typeRank, hev, ht, hd]
      simp
    · simp only [itemLe, keyLe, Item.sort_key, typeRank, hev, ht, hd]
      simp

/-- C7 witness: one insertion through the transaction layer followed by
the replayed revert of its op, starting sorted, staying sorted (and the
event-before-task comparison at a concrete pair). -/
theorem C7_sort_invariant_witness :
    runSortSteps [.call (.insertItem "c" (mkTask "t2" "b" 0 false none)),
        .revertStep (.insertItem "c" (mkTask "t2" "b" 0 false none))]
      (mkEditor [mkSubcal "c" "cal" [mkTask "t1" "a" 0 false (some "c")]]
        ⟨[], [], some ⟨"ins", []⟩⟩)
      = some (mkEditor [mkSubcal "c" "cal" [mkTask "t1" "a" 0 false (some "c")]]
        ⟨[], [], some ⟨"ins", [.insertItem "c" (mkTask "t2" "b" 0 false none)]⟩⟩)
    ∧ SortedModelB [mkSubcal "c" "cal" [mkTask "t1" "a" 0 false (some "c")]] = true
    ∧ itemLe (mkEvent "e1" "zzz" 5 6 (some "c")) (mkTask "t9" "aaa" 5 false (some "c")) = true :=
  ⟨by decide,
   (C7_sort_invariant.1 [.call (.insertItem "c" (mkTask "t2" "b" 0 false none)),
        .revertStep (.insertItem "c" (mkTask "t2" "b" 0 false none))]
      (mkEditor [mkSubcal "c" "cal" [mkTask "t1" "a" 0 false (some "c")]]
        ⟨[], [], some ⟨"ins", []⟩⟩)
      (mkEditor [mkSubcal "c" "cal" [mkTask "t1" "a" 0 false (some "c")]]
        ⟨[], [], some ⟨"ins", [.insertItem "c" (mkTask "t2" "b" 0 false none)]⟩⟩)
      (by decide) (by decide) (by decide)),
   (C7_sort_invariant.2 (mkEvent "e1" "zzz" 5 6 (some "c"))
      (mkTask "t9" "aaa" 5 false (some "c")) rfl rfl rfl).1⟩

theorem itemUids_eq_map (m : Model) : itemUids m = (allItems m).map Item.uid := by
  induction m with
  | nil => rfl
  | cons sc rest ih => simp [itemUids, allItems, List.flatMap_cons, ih, List.map_flatMap]

/-- In a list pairwise-distinct under `f`, an element is determined by
its `f`-image. -/
theorem mem_eq_of_fun_ne (f : α → β) (l : List α)
    (hd : l.Pairwise (fun a b => f a ≠ f b))
    (a b : α) (ha : a ∈ l) (hb : b ∈ l) (h : f a = f b) : a = b := by
  induction l with
  | nil => cases ha
  | cons x xs ih =>
    rcases List.pairwise_cons.mp hd with ⟨hx, hxs⟩
    rcases List.mem_cons.mp ha with ha1 | ha1 <;> rcases List.mem_cons.mp hb with hb1 | hb1
    · rw [ha1, hb1]
    · rw [ha1] at h ⊢
      exact absurd h (hx b hb1)
    · rw [hb1] at h ⊢
      exact absurd h.symm (hx a ha1)
    · exact ih hxs ha1 hb1

theorem find?_eq_some_of_unique (p : α → Bool) (l : List α) (x : α)
    (hx : x ∈ l) (hpx : p x = true) (huniq : ∀ y ∈ l, p y = true → y = x) :
    l.find? p = some x := by
  induction l with
  | nil => cases hx
  | cons h t ih =>
    by_cases hph : p h = true
    · rw [List.find?_cons_of_pos _ hph, huniq h (by simp) hph]
    · rw [List.find?_cons_of_neg _ hph]
      rcases List.mem_cons.mp hx with hx1 | hx1
      · rw [hx1] at hpx; exact absurd hpx hph
      · exact ih hx1 (fun y hy hpy => huniq y (by simp [hy]) hpy)

/-- Erasing the unique `p`-match gives the complement, up to order. -/
theorem perm_cons_eraseP_of_unique (p : α → Bool) (l : List α) (x : α)
    (hx : x ∈ l) (hpx : p x = true) (huniq : ∀ y ∈ l, p y = true → y = x) :
    l.Perm (x :: l.eraseP p) := by
  induction l with
  | nil => cases hx
  | cons h t ih =>
    by_cases hph : p h = true
    · rw [huniq h (by simp) hph, List.eraseP_cons_of_pos hpx]
    · rw [List.eraseP_cons_of_neg hph]
      rcases List.mem_cons.mp hx with hx1 | hx1
      · rw [hx1] at hpx; exact absurd hpx hph
      · exact ((ih hx1 (fun y hy hpy => huniq y (by simp [hy]) hpy)).cons h).trans
          (List.Perm.swap x h (t.eraseP p))

theorem sc_items_sublist_allItems (m : Model) (sc : Subcalendar) (hsc : sc ∈ m) :
    sc.items.Sublist (allItems m) := by
  induction m with
  | nil => cases hsc
  | cons s rest ih =>
    rcases List.mem_cons.mp hsc with h | h
    · rw [h]
      simp only [allItems, List.flatMap_cons]
      exact List.sublist_append_left _ _
    · simp only [allItems, List.flatMap_cons]
      exact List.Sublist.trans (ih h) (List.sublist_append_right _ _)

theorem mem_allItems (m : Model) (sc : Subcalendar) (it : Item)
    (hsc : sc ∈ m) (hit : it ∈ sc.items) : it ∈ allItems m :=
  (sc_items_sublist_allItems m sc hsc).mem hit

/-- The well-formedness checks, unbundled. -/
theorem wfModel_spec (m : Model) (h : wfModel m = true) :
    m.Pairwise (fun a b => a.uid ≠ b.uid)
    ∧ (allItems m).Pairwise (fun a b => a.uid ≠ b.uid)
    ∧ (∀ sc ∈ m, ∀ it ∈ sc.items, it.parent_subcal = some sc.uid)
    ∧ (∀ sc ∈ m, ItemsSorted sc.items)
    ∧ (∀ sc ∈ m, sc.items.Pairwise (fun a b => a.sort_key ≠ b.sort_key)) := by
  simp only [wfModel, Bool.and_eq_true] at h
  rcases h with ⟨⟨⟨⟨h1, h2⟩, h3⟩, h4⟩, h5⟩
  refine ⟨?_, ?_, ?_, ?_, ?_⟩
  · have := (pairwiseB_iff _ _).mp h1
    exact this.imp (fun hab => by simpa using hab)
  · have := (pairwiseB_iff _ _).mp h2
    rw [itemUids_eq_map] at this
    have := (List.pairwise_map).mp this
    exact this.imp (fun hab => by simpa using hab)
  · intro sc hsc it hit
    rw [List.all_eq_true] at h3
    have := h3 sc hsc
    rw [List.all_eq_true] at this
    have := this it hit
    simpa using this
  · intro sc hsc
    rw [List.all_eq_true] at h4
    exact (pairwiseB_iff _ _).mp (h4 sc hsc)
  · intro sc hsc
    rw [List.all_eq_true] at h5
    have := (pairwiseB_iff _ _).mp (h5 sc hsc)
    exact this.imp (fun hab => by simpa using hab)

theorem get_item_by_uid_mem (m : Model) (u : String) (it : Item)
    (h : get_item_by_uid m u = some it) :
    it.uid = u ∧ ∃ sc ∈ m, it ∈ sc.items := by
  induction m with
  | nil => cases h
  | cons sc rest ih =>
    simp only [get_item_by_uid] at h
    cases hf : sc.items.find? (fun x => x.uid = u) with
    | some x =>
      rw [hf] at h
      cases h
      refine ⟨by simpa using List.find?_some hf, sc, by simp, List.mem_of_find?_eq_some hf⟩
    | none =>
      rw [hf] at h
      rcases ih h with ⟨h1, sc', hsc', hit'⟩
      exact ⟨h1, sc', by simp [hsc'], hit'⟩

theorem get_item_by_uid_isSome (m : Model) (u : String) (sc : Subcalendar) (it : Item)
    (hsc : sc ∈ m) (hit : it ∈ sc.items) (hu : it.uid = u) :
    ∃ it0, get_item_by_uid m u = some it0 := by
  induction m with
  | nil => cases hsc
  | cons s rest ih =>
    simp only [get_item_by_uid]
    cases hf : s.items.find? (fun x => x.uid = u) with
    | some x => exact ⟨x, rfl⟩
    | none =>
      rcases List.mem_cons.mp hsc with h | h
      · rw [List.find?_eq_none] at hf
        rw [← h] at hf
        exact absurd (by simpa using hu) (by simpa using hf it hit)
      · exact ih h

theorem get_item_by_uid_unique (m : Model) (u : String) (it0 : Item)
    (hnd : (allItems m).Pairwise (fun a b => a.uid ≠ b.uid))
    (h : get_item_by_uid m u = some it0)
    (sc : Subcalendar) (it : Item) (hsc : sc ∈ m) (hit : it ∈ sc.items) (hu : it.uid = u) :
    it = it0 := by
  rcases get_item_by_uid_mem m u it0 h with ⟨h0, sc0, hsc0, hit0⟩
  exact mem_eq_of_fun_ne Item.uid (allItems m) hnd it it0
    (mem_allItems m sc it hsc hit) (mem_allItems m sc0 it0 hsc0 hit0) (hu.trans h0.symm)

theorem get_item_by_uid_of_mem (m : Model) (u : String) (sc : Subcalendar) (it : Item)
    (hnd : (allItems m).Pairwise (fun a b => a.uid ≠ b.uid))
    (hsc : sc ∈ m) (hit : it ∈ sc.items) (hu : it.uid = u) :
    get_item_by_uid m u = some it := by
  rcases get_item_by_uid_isSome m u sc it hsc hit hu with ⟨it0, h0⟩
  rw [h0, get_item_by_uid_unique m u it0 hnd h0 sc it hsc hit hu]

theorem get_subcal_by_uid_mem (m : Model) (u : String) (sc : Subcalendar)
    (h : get_subcal_by_uid m u = some sc) : sc.uid = u ∧ sc ∈ m :=
  ⟨by simpa using List.find?_some h, List.mem_of_find?_eq_some h⟩

theorem get_subcal_by_uid_of_mem (m : Model) (u : String) (sc : Subcalendar)
    (hnd : m.Pairwise (fun a b => a.uid ≠ b.uid))
    (hsc : sc ∈ m) (hu : sc.uid = u) : get_subcal_by_uid m u = some sc := by
  refine find?_eq_some_of_unique _ m sc hsc (by simpa using hu) ?_
  intro y hy hpy
  exact mem_eq_of_fun_ne Subcalendar.uid m hnd y sc hy hsc (by simp at hpy; rw [hpy, hu])

theorem map_pointwise_id (l : List α) (g : α → α) (h : ∀ x ∈ l, g x = x) :
    l.map g = l := by
  induction l with
  | nil => rfl
  | cons x xs ih => simp [h x (by simp), ih (fun y hy => h y (by simp [hy]))]

theorem insert_roundtrip (l0 : List Item) (x : Item)
    (hl0 : ItemsSorted l0)
    (hkeys : (sortItems (l0 ++ [x])).Pairwise (fun a b => a.sort_key ≠ b.sort_key))
    (huids : (sortItems (l0 ++ [x])).Pairwise (fun a b => a.uid ≠ b.uid)) :
    sortItems (eraseItemUid (sortItems (l0 ++ [x])) x.uid) = l0 := by
  have hperm : (sortItems (l0 ++ [x])).Perm (l0 ++ [x]) := sortItems_perm _
  have hxs : x ∈ sortItems (l0 ++ [x]) := hperm.mem_iff.mpr (by simp)
  have huniq : ∀ y ∈ sortItems (l0 ++ [x]), decide (y.uid = x.uid) = true → y = x :=
    fun y hy hpy => mem_eq_of_fun_ne Item.uid _ huids y x hy hxs (by simpa using hpy)
  have hperm2 : (sortItems (l0 ++ [x])).Perm (x :: eraseItemUid (sortItems (l0 ++ [x])) x.uid) :=
    perm_cons_eraseP_of_unique _ _ x hxs (by simp) huniq
  have hperm3 : (eraseItemUid (sortItems (l0 ++ [x])) x.uid).Perm l0 :=
    (hperm2.symm.trans (hperm.trans (List.perm_append_singleton x l0))).cons_inv
  have hesorted : ItemsSorted (eraseItemUid (sortItems (l0 ++ [x])) x.uid) :=
    List.Pairwise.sublist (List.eraseP_sublist _) (sortItems_pairwise _)
  rw [sortItems_of_sorted _ hesorted]
  refine sorted_perm_eq _ _ hperm3 hesorted hl0 ?_
  have hall : (l0 ++ [x]).Pairwise (fun a b => a.sort_key ≠ b.sort_key) :=
    (List.Perm.pairwise_iff (fun h he => h he.symm) hperm).mp hkeys
  exact List.Pairwise.sublist (List.sublist_append_left _ _) hall

theorem remove_roundtrip (l0 : List Item) (x : Item)
    (hl0 : ItemsSorted l0)
    (hkeys : l0.Pairwise (fun a b => a.sort_key ≠ b.sort_key))
    (huids : l0.Pairwise (fun a b => a.uid ≠ b.uid))
    (hx : x ∈ l0) :
    sortItems (sortItems (eraseItemUid l0 x.uid) ++ [x]) = l0 := by
  have huniq : ∀ y ∈ l0, decide (y.uid = x.uid) = true → y = x :=
    fun y hy hpy => mem_eq_of_fun_ne Item.uid l0 huids y x hy hx (by simpa using hpy)
  have hperm : l0.Perm (x :: eraseItemUid l0 x.uid) :=
    perm_cons_eraseP_of_unique _ l0 x hx (by simp) huniq
  have hesorted : ItemsSorted (eraseItemUid l0 x.uid) :=
    List.Pairwise.sublist (List.eraseP_sublist _) hl0
  rw [sortItems_of_sorted _ hesorted]
  refine sorted_perm_eq _ _ ?_ (sortItems_pairwise _) hl0 hkeys
  exact (sortItems_perm _).trans ((List.perm_append_singleton _ _).trans hperm.symm)

theorem setAttr_uid (it it' : Item) (attr : AttrName) (v : AttrVal)
    (h : setAttr it attr v = some it') : it'.uid = it.uid := by
  cases attr <;> cases v <;> simp only [setAttr] at h <;> (try cases h) <;> rfl

theorem setAttr_cancel (it it' : Item) (attr : AttrName) (v : AttrVal)
    (h : setAttr it attr v = some it') :
    setAttr it' attr (getAttr it attr) = some it := by
  cases attr <;> cases v <;> simp only [setAttr] at h <;> (try cases h) <;> rfl

theorem setSubcalAttr_uid (sc sc' : Subcalendar) (attr : SubcalAttrName) (v : AttrVal)
    (h : setSubcalAttr sc attr v = some sc') : sc'.uid = sc.uid := by
  cases attr <;> cases v <;> simp only [setSubcalAttr] at h <;> (try cases h) <;> rfl

theorem setSubcalAttr_cancel (sc sc' : Subcalendar) (attr : SubcalAttrName) (v : AttrVal)
    (h : setSubcalAttr sc attr v = some sc') :
    setSubcalAttr sc' attr (getSubcalAttr sc attr) = some sc := by
  cases attr <;> cases v <;> simp only [setSubcalAttr] at h <;> (try cases h) <;> rfl

theorem mem_replaceItem (m : Model) (uid : String) (x : Item) (sc : Subcalendar) (it : Item)
    (hsc : sc ∈ m) (hit : it ∈ sc.items) (hu : it.uid = uid) :
    ∃ sc' ∈ replaceItem m uid x, x ∈ sc'.items := by
  refine ⟨{ sc with items := sc.items.map (fun y => if y.uid = uid then x else y) }, ?_, ?_⟩
  · exact List.mem_map.mpr ⟨sc, hsc, rfl⟩
  · exact List.mem_map.mpr ⟨it, hit, by simp [hu]⟩

theorem replaceItem_replaceItem (m : Model) (uid : String) (x y : Item) (hx : x.uid = uid) :
    replaceItem (replaceItem m uid x) uid y = replaceItem m uid y := by
  unfold replaceItem
  rw [List.map_map]
  apply List.map_congr_left
  intro sc _
  simp only [Function.comp]
  rw [List.map_map]
  congr 1
  apply List.map_congr_left
  intro z _
  by_cases hz : z.uid = uid
  · simp [hz, hx]
  · simp [hz]

theorem replaceItem_self (m : Model) (uid : String) (it : Item)
    (hnd : (allItems m).Pairwise (fun a b => a.uid ≠ b.uid))
    (h : get_item_by_uid m uid = some it) : replaceItem m uid it = m := by
  unfold replaceItem
  apply map_pointwise_id
  intro sc hsc
  have hitems : sc.items.map (fun y => if y.uid = uid then it else y) = sc.items := by
    apply map_pointwise_id
    intro y hy
    by_cases hyu : y.uid = uid
    · rw [if_pos hyu, get_item_by_uid_unique m uid it hnd h sc y hsc hy hyu]
    · rw [if_neg hyu]
  rw [hitems]

theorem updateSubcalItems_comp (m : Model) (u : String) (f g : List Item → List Item) :
    updateSubcalItems (updateSubcalItems m u f) u g
      = updateSubcalItems m u (fun l => g (f l)) := by
  unfold updateSubcalItems
  rw [List.map_map]
  apply List.map_congr_left
  intro sc _
  by_cases h : sc.uid = u <;> simp [h]

theorem get_subcal_updateSubcalItems (m : Model) (u : String) (f : List Item → List Item)
    (u' : String) :
    get_subcal_by_uid (updateSubcalItems m u f) u'
      = (get_subcal_by_uid m u').map
        (fun sc => if sc.uid = u then { sc with items := f sc.items } else sc) := by
  unfold get_subcal_by_uid updateSubcalItems
  have hp : ((fun sc : Subcalendar => decide (sc.uid = u'))
        ∘ (fun sc => if sc.uid = u then { sc with items := f sc.items } else sc))
      = (fun sc : Subcalendar => decide (sc.uid = u')) := by
    funext sc
    by_cases h : sc.uid = u <;> simp [h, Function.comp]
  rw [List.find?_map, hp]

theorem pyInsert_at_length (l : List α) (x : α) : pyInsert l.length x l = l ++ [x] := by
  induction l with
  | nil => rfl
  | cons y ys ih => simp [pyInsert, List.length_cons, ih]

theorem pyInsert_findIdx_eraseP (p : α → Bool) (l : List α) (x : α)
    (h : l.find? p = some x) : pyInsert (l.findIdx p) x (l.eraseP p) = l := by
  induction l with
  | nil => cases h
  | cons y ys ih =>
    by_cases hp : p y = true
    · rw [List.find?_cons_of_pos _ hp] at h
      cases h
      rw [List.findIdx_cons]
      simp only [hp, if_true, List.eraseP_cons_of_pos hp]
      cases ys <;> rfl
    · rw [List.find?_cons_of_neg _ hp] at h
      rw [List.findIdx_cons]
      simp only [hp, if_false, List.eraseP_cons_of_neg hp]
      cases hys : ys.eraseP p with
      | nil =>
        have := ih h
        rw [hys] at this
        simp [pyInsert, this]
      | cons z zs =>
        have := ih h
        rw [hys] at this
        simp [pyInsert, this]

theorem any_of_mem_uid (l : List Item) (x : Item) (u : String)
    (hx : x ∈ l) (hu : x.uid = u) : (l.any fun it => it.uid = u) = true :=
  List.any_eq_true.mpr ⟨x, hx, by simpa using hu⟩

theorem subcalReplace_comp (m : Model) (uid : String) (x y : Subcalendar) (hx : x.uid = uid) :
    (m.map (fun s => if s.uid = uid then x else s)).map (fun s => if s.uid = uid then y else s)
      = m.map (fun s => if s.uid = uid then y else s) := by
  rw [List.map_map]
  apply List.map_congr_left
  intro s _
  by_cases hs : s.uid = uid
  · simp [hs, hx, Function.comp]
  · simp [hs, Function.comp]

theorem subcalReplace_self (m : Model) (uid : String) (sc : Subcalendar)
    (hnd : m.Pairwise (fun a b => a.uid ≠ b.uid))
    (h : get_subcal_by_uid m uid = some sc) :
    m.map (fun s => if s.uid = uid then sc else s) = m := by
  apply map_pointwise_id
  intro s hs
  by_cases hsu : s.uid = uid
  · rw [if_pos hsu]
    rcases get_subcal_by_uid_mem m uid sc h with ⟨hscu, hscm⟩
    exact (mem_eq_of_fun_ne Subcalendar.uid m hnd s sc hs hscm (hsu.trans hscu.symm)).symm
  · rw [if_neg hsu]

theorem get_subcal_map_replace (m : Model) (uid : String) (x : Subcalendar) (hx : x.uid = uid) :
    get_subcal_by_uid (m.map (fun s => if s.uid = uid then x else s)) uid
      = (get_subcal_by_uid m uid).map (fun s => if s.uid = uid then x else s) := by
  unfold get_subcal_by_uid
  have hp : ((fun s : Subcalendar => decide (s.uid = uid))
        ∘ (fun s => if s.uid = uid then x else s))
      = (fun s : Subcalendar => decide (s.uid = uid)) := by
    funext s
    by_cases hs : s.uid = uid <;> simp [hs, hx, Function.comp]
  rw [List.find?_map, hp]

theorem parent_eta (it : Item) (u : String) (h : it.parent_subcal = some u) :
    { it with parent_subcal := some u } = it := by
  cases it
  simp only at h
  rw [← h]

theorem callSpec_nil (e : Editor) (tx : Transaction)
    (hcur : e.history.current_tx = some tx) : CallSpec e e tx [] := by
  refine ⟨?_, rfl, rfl⟩
  rw [hcur]
  cases tx
  simp

theorem spec_setItemAttr (e e1 : Editor) (tx : Transaction) (uid : String)
    (attr : AttrName) (v : AttrVal)
    (hcur : e.history.current_tx = some tx)
    (hwf : wfModel e.subcalendars = true) (hwf1 : wfModel e1.subcalendars = true)
    (h : tx_set_item_attr e uid attr v = .ok e1) :
    ∃ ops_c, CallSpec e e1 tx ops_c := by
  unfold tx_set_item_attr at h
  cases hit : get_item_by_uid e.subcalendars uid with
  | none => rw [hit] at h; cases h
  | some it =>
    simp only [hit] at h
    by_cases hold : getAttr it attr = v
    · rw [if_pos hold] at h
      cases h
      exact ⟨[], callSpec_nil e tx hcur⟩
    · rw [if_neg hold] at h
      have hrec : record e (.setItemAttr uid attr (getAttr it attr) v)
          = .ok { e with history := { e.history with
              current_tx := some ⟨tx.label, tx.ops ++ [.setItemAttr uid attr (getAttr it attr) v]⟩ } } := by
        simp [record, hcur]
      simp only [hrec] at h
      cases hm : setItemAttrModel uid attr v e.subcalendars with
      | none => simp only [hm] at h; cases h
      | some m2 =>
        simp only [hm] at h
        cases h
        refine ⟨[.setItemAttr uid attr (getAttr it attr) v], rfl, ?_, ?_⟩
        · simp only [runOpList, Op.apply, hm]
        · simp only [List.reverse_cons, List.reverse_nil, List.nil_append, runOpList, Op.revert]
          unfold setItemAttrModel at hm ⊢
          simp only [hit] at hm
          cases hsa : setAttr it attr v with
          | none => rw [hsa] at hm; cases hm
          | some it' =>
            rw [hsa] at hm
            cases hm
            rcases get_item_by_uid_mem _ uid it hit with ⟨hituid, sc, hscm, hitm⟩
            have hit'uid : it'.uid = uid := (setAttr_uid it it' attr v hsa).trans hituid
            rcases mem_replaceItem e.subcalendars uid it' sc it hscm hitm hituid
              with ⟨sc', hsc'm, hit'm⟩
            have hnd1 := (wfModel_spec _ hwf1).2.1
            have hlook : get_item_by_uid (replaceItem e.subcalendars uid it') uid = some it' := by
              exact get_item_by_uid_of_mem _ uid sc' it' hnd1 hsc'm hit'm hit'uid
            simp only [hlook, setAttr_cancel it it' attr v hsa,
              replaceItem_replaceItem _ uid it' it hit'uid,
              replaceItem_self _ uid it (wfModel_spec _ hwf).2.1 hit]

theorem spec_setSubcalAttr (e e1 : Editor) (tx : Transaction) (uid : String)
    (attr : SubcalAttrName) (v : AttrVal)
    (hcur : e.history.current_tx = some tx)
    (hwf : wfModel e.subcalendars = true)
    (h : tx_set_subcal_attr e uid attr v = .ok e1) :
    ∃ ops_c, CallSpec e e1 tx ops_c := by
  unfold tx_set_subcal_attr at h
  cases hsc : get_subcal_by_uid e.subcalendars uid with
  | none => rw [hsc] at h; cases h
  | some sc =>
    simp only [hsc] at h
    by_cases hold : getSubcalAttr sc attr = v
    · rw [if_pos hold] at h
      cases h
      exact ⟨[], callSpec_nil e tx hcur⟩
    · rw [if_neg hold] at h
      have hrec : record e (.setSubcalAttr uid attr (getSubcalAttr sc attr) v)
          = .ok { e with history := { e.history with
              current_tx := some ⟨tx.label, tx.ops ++ [.setSubcalAttr uid attr (getSubcalAttr sc attr) v]⟩ } } := by
        simp [record, hcur]
      simp only [hrec] at h
      cases hm : setSubcalAttrModel uid attr v e.subcalendars with
      | none => simp only [hm] at h; cases h
      | some m2 =>
        simp only [hm] at h
        cases h
        refine ⟨[.setSubcalAttr uid attr (getSubcalAttr sc attr) v], rfl, ?_, ?_⟩
        · simp only [runOpList, Op.apply, hm]
        · simp only [List.reverse_cons, List.reverse_nil, List.nil_append, runOpList, Op.revert]
          unfold setSubcalAttrModel at hm ⊢
          simp only [hsc] at hm
          cases hsa : setSubcalAttr sc attr v with
          | none => rw [hsa] at hm; cases hm
          | some sc' =>
            rw [hsa] at hm
            cases hm
            rcases get_subcal_by_uid_mem _ uid sc hsc with ⟨hscuid, hscm⟩
            have hsc'uid : sc'.uid = uid := (setSubcalAttr_uid sc sc' attr v hsa).trans hscuid
            have hlook : get_subcal_by_uid
                (e.subcalendars.map (fun s => if s.uid = uid then sc' else s)) uid
                = some sc' := by
              rw [get_subcal_map_replace _ uid sc' hsc'uid, hsc]
              simp [hscuid]
            simp only [hlook, setSubcalAttr_cancel sc sc' attr v hsa,
              subcalReplace_comp _ uid sc' sc hsc'uid,
              subcalReplace_self _ uid sc (wfModel_spec _ hwf).1 hsc]

theorem spec_insertSubcal (e e1 : Editor) (tx : Transaction) (sc : Subcalendar)
    (hcur : e.history.current_tx = some tx)
    (h : tx_insert_subcal e sc = .ok e1) :
    ∃ ops_c, CallSpec e e1 tx ops_c := by
  unfold tx_insert_subcal at h
  by_cases hdup : (e.subcalendars.any fun s => s.uid = sc.uid) = true
  · rw [if_pos hdup] at h; cases h
  · rw [if_neg hdup] at h
    have hrec : record e (.insertSubcal e.subcalendars.length sc)
        = .ok { e with history := { e.history with
            current_tx := some ⟨tx.label, tx.ops ++ [.insertSubcal e.subcalendars.length sc]⟩ } } := by
      simp [record, hcur]
    simp only [hrec] at h
    cases h
    refine ⟨[.insertSubcal e.subcalendars.length sc], rfl, ?_, ?_⟩
    · simp only [runOpList, Op.apply, pyInsert_at_length]
    · simp only [List.reverse_cons, List.reverse_nil, List.nil_append, runOpList, Op.revert,
        removeSubcalValue]
      have hany : ((e.subcalendars ++ [sc]).any fun s => s.uid = sc.uid) = true :=
        List.any_eq_true.mpr ⟨sc, by simp, by simp⟩
      have hpre : ∀ b ∈ e.subcalendars, ¬ (fun s : Subcalendar => decide (s.uid = sc.uid)) b = true := by
        intro b hb hbe
        exact hdup (List.any_eq_true.mpr ⟨b, hb, hbe⟩)
      rw [if_pos hany, List.eraseP_append_right _ hpre]
      simp

theorem spec_removeSubcal (e e1 : Editor) (tx : Transaction) (uid : String)
    (hcur : e.history.current_tx = some tx)
    (h : tx_remove_subcal e uid = .ok e1) :
    ∃ ops_c, CallSpec e e1 tx ops_c := by
  unfold tx_remove_subcal at h
  cases hsc : get_subcal_by_uid e.subcalendars uid with
  | none => rw [hsc] at h; cases h
  | some sc =>
    simp only [hsc] at h
    have hrec : record e (.removeSubcal (e.subcalendars.findIdx fun s => s.uid = uid) sc)
        = .ok { e with history := { e.history with
            current_tx := some ⟨tx.label,
              tx.ops ++ [.removeSubcal (e.subcalendars.findIdx fun s => s.uid = uid) sc]⟩ } } := by
      simp [record, hcur]
    simp only [hrec] at h
    cases hm : removeSubcalValue uid e.subcalendars with
    | none => simp only [hm] at h; cases h
    | some m2 =>
      simp only [hm] at h
      cases h
      rcases get_subcal_by_uid_mem _ uid sc hsc with ⟨hscuid, hscm⟩
      refine ⟨[.removeSubcal (e.subcalendars.findIdx fun s => s.uid = uid) sc], rfl, ?_, ?_⟩
      · simp only [runOpList, Op.apply, hscuid, hm]
      · simp only [List.reverse_cons, List.reverse_nil, List.nil_append, runOpList, Op.revert]
        unfold removeSubcalValue at hm
        rw [if_pos (List.any_eq_true.mpr ⟨sc, hscm, by simpa using hscuid⟩)] at hm
        cases hm
        rw [pyInsert_findIdx_eraseP _ _ sc hsc]

theorem wf_at_subcal (m' : Model) (hwf1 : wfModel m' = true) (sc' : Subcalendar)
    (hsc' : sc' ∈ m') :
    sc'.items.Pairwise (fun a b => a.sort_key ≠ b.sort_key)
    ∧ sc'.items.Pairwise (fun a b => a.uid ≠ b.uid)
    ∧ ItemsSorted sc'.items := by
  rcases wfModel_spec m' hwf1 with ⟨_, hnd, _, hsort, hkeys⟩
  exact ⟨hkeys sc' hsc',
    List.Pairwise.sublist (sc_items_sublist_allItems m' sc' hsc') hnd,
    hsort sc' hsc'⟩

theorem updated_mem (m : Model) (scUid : String) (f : List Item → List Item)
    (sc0 : Subcalendar) (hsc0 : sc0 ∈ m) (hu : sc0.uid = scUid) :
    { sc0 with items := f sc0.items } ∈ updateSubcalItems m scUid f := by
  unfold updateSubcalItems
  exact List.mem_map.mpr ⟨sc0, hsc0, by simp [hu]⟩

theorem found_item_in_parent (m : Model) (uid scUid : String) (it : Item) (sc0 : Subcalendar)
    (hwf : wfModel m = true)
    (hit : get_item_by_uid m uid = some it)
    (hp : it.parent_subcal = some scUid)
    (hsc : get_subcal_by_uid m scUid = some sc0) : it ∈ sc0.items := by
  rcases wfModel_spec m hwf with ⟨hsubnd, _, hpar, _, _⟩
  rcases get_item_by_uid_mem m uid it hit with ⟨_, sc1, hsc1, hit1⟩
  have h1 : it.parent_subcal = some sc1.uid := hpar sc1 hsc1 it hit1
  have h2 : sc1.uid = scUid := by
    rw [h1] at hp
    exact Option.some.inj hp
  rcases get_subcal_by_uid_mem m scUid sc0 hsc with ⟨hsc0u, hsc0m⟩
  rw [mem_eq_of_fun_ne Subcalendar.uid m hsubnd sc1 sc0 hsc1 hsc0m (h2.trans hsc0u.symm)] at hit1
  exact hit1

theorem spec_insertItem (e e1 : Editor) (tx : Transaction) (scUid : String) (item : Item)
    (hcur : e.history.current_tx = some tx)
    (hwf : wfModel e.subcalendars = true) (hwf1 : wfModel e1.subcalendars = true)
    (h : tx_insert_item e scUid item = .ok e1) :
    ∃ ops_c, CallSpec e e1 tx ops_c := by
  unfold tx_insert_item at h
  by_cases hparn : item.parent_subcal = none
  · rw [if_neg (not_not_intro hparn)] at h
    cases hsc : get_subcal_by_uid e.subcalendars scUid with
    | none => rw [hsc] at h; cases h
    | some sc0 =>
      simp only [hsc] at h
      have hrec : record e (.insertItem scUid item)
          = .ok { e with history := { e.history with
              current_tx := some ⟨tx.label, tx.ops ++ [.insertItem scUid item]⟩ } } := by
        simp [record, hcur]
      simp only [hrec] at h
      cases hm : insertItemModel scUid item e.subcalendars with
      | none => simp only [hm] at h; cases h
      | some m2 =>
        simp only [hm] at h
        cases h
        rcases get_subcal_by_uid_mem _ scUid sc0 hsc with ⟨hsc0u, hsc0m⟩
        refine ⟨[.insertItem scUid item], rfl, ?_, ?_⟩
        · simp only [runOpList, Op.apply, hm]
        · simp only [List.reverse_cons, List.reverse_nil, List.nil_append, runOpList, Op.revert]
          have hm' := hm
          unfold insertItemModel at hm'
          simp only [hsc] at hm'
          cases hm'
          unfold removeItemModel
          rw [get_subcal_updateSubcalItems, hsc]
          simp only [Option.map, Option.bind, hsc0u, if_true]
          have hmemit : ({ item with parent_subcal := some scUid } : Item)
              ∈ sortItems (sc0.items ++ [{ item with parent_subcal := some scUid }]) :=
            (sortItems_perm _).mem_iff.mpr (by simp)
          rw [if_pos (any_of_mem_uid _ _ _ hmemit rfl)]
          rw [updateSubcalItems_comp]
          have hmem2 := updated_mem e.subcalendars scUid
            (fun l => sortItems (l ++ [{ item with parent_subcal := some scUid }])) sc0 hsc0m hsc0u
          have hwfat := wf_at_subcal
            (updateSubcalItems e.subcalendars scUid
              (fun l => sortItems (l ++ [{ item with parent_subcal := some scUid }])))
            hwf1
            { sc0 with items := sortItems (sc0.items ++ [{ item with parent_subcal := some scUid }]) }
            hmem2
          have hrt := insert_roundtrip sc0.items { item with parent_subcal := some scUid }
            ((wfModel_spec _ hwf).2.2.2.1 sc0 hsc0m) hwfat.1 hwfat.2.1
          have hid : updateSubcalItems e.subcalendars scUid
              (fun l => sortItems (eraseItemUid
                (sortItems (l ++ [{ item with parent_subcal := some scUid }])) item.uid))
              = e.subcalendars := by
            apply map_pointwise_id
            intro sc hscmem
            by_cases hscu : sc.uid = scUid
            · rw [if_pos hscu]
              rw [mem_eq_of_fun_ne Subcalendar.uid e.subcalendars (wfModel_spec _ hwf).1
                sc sc0 hscmem hsc0m (hscu.trans hsc0u.symm)]
              rw [show (({ item with parent_subcal := some scUid } : Item)).uid = item.uid from rfl] at hrt
              simp only [hrt]
            · rw [if_neg hscu]
          rw [hid]
  · rw [if_pos hparn] at h
    cases h

theorem spec_removeItem (e e1 : Editor) (tx : Transaction) (uid : String)
    (hcur : e.history.current_tx = some tx)
    (hwf : wfModel e.subcalendars = true)
    (h : tx_remove_item e uid = .ok e1) :
    ∃ ops_c, CallSpec e e1 tx ops_c := by
  unfold tx_remove_item at h
  cases hit : get_item_by_uid e.subcalendars uid with
  | none => rw [hit] at h; cases h
  | some item =>
    simp only [hit] at h
    cases hpar : item.parent_subcal with
    | none => rw [hpar] at h; cases h
    | some scUid =>
      simp only [hpar] at h
      have hrec : record e (.removeItem scUid item)
          = .ok { e with history := { e.history with
              current_tx := some ⟨tx.label, tx.ops ++ [.removeItem scUid item]⟩ } } := by
        simp [record, hcur]
      simp only [hrec] at h
      cases hm : removeItemModel scUid uid e.subcalendars with
      | none => simp only [hm] at h; cases h
      | some m2 =>
        simp only [hm] at h
        cases h
        rcases get_item_by_uid_mem _ uid item hit with ⟨hituid, _⟩
        refine ⟨[.removeItem scUid item], rfl, ?_, ?_⟩
        · simp only [runOpList, Op.apply, hituid, hm]
        · simp only [List.reverse_cons, List.reverse_nil, List.nil_append, runOpList, Op.revert]
          have hm' := hm
          unfold removeItemModel at hm'
          cases hsc : get_subcal_by_uid e.subcalendars scUid with
          | none => rw [hsc] at hm'; cases hm'
          | some sc0 =>
            simp only [hsc] at hm'
            rcases get_subcal_by_uid_mem _ scUid sc0 hsc with ⟨hsc0u, hsc0m⟩
            have hmemit : item ∈ sc0.items :=
              found_item_in_parent e.subcalendars uid scUid item sc0 hwf hit hpar hsc
            rw [if_pos (any_of_mem_uid _ item uid hmemit hituid)] at hm'
            cases hm'
            unfold insertItemModel
            rw [get_subcal_updateSubcalItems, hsc]
            simp only [Option.map, Option.bind, hsc0u, if_true]
            rw [parent_eta item scUid hpar]
            rw [updateSubcalItems_comp]
            have hwfat := wf_at_subcal e.subcalendars hwf sc0 hsc0m
            have hrt := remove_roundtrip sc0.items item hwfat.2.2 hwfat.1 hwfat.2.1 hmemit
            rw [hituid] at hrt
            have hid : updateSubcalItems e.subcalendars scUid
                (fun l => sortItems (sortItems (eraseItemUid l uid) ++ [item]))
                = e.subcalendars := by
              apply map_pointwise_id
              intro sc hscmem
              by_cases hscu : sc.uid = scUid
              · rw [if_pos hscu]
                rw [mem_eq_of_fun_ne Subcalendar.uid e.subcalendars (wfModel_spec _ hwf).1
                  sc sc0 hscmem hsc0m (hscu.trans hsc0u.symm)]
                simp only [hrt]
              · rw [if_neg hscu]
            rw [hid]

theorem spec_moveItem (e e1 : Editor) (tx : Transaction) (uid dstUid : String)
    (hcur : e.history.current_tx = some tx)
    (hwf : wfModel e.subcalendars = true) (hwf1 : wfModel e1.subcalendars = true)
    (h : tx_move_item e uid dstUid = .ok e1) :
    ∃ ops_c, CallSpec e e1 tx ops_c := by
  unfold tx_move_item at h
  cases hit : get_item_by_uid e.subcalendars uid with
  | none => rw [hit] at h; cases h
  | some item =>
    simp only [hit] at h
    cases hpar : item.parent_subcal with
    | none => rw [hpar] at h; cases h
    | some srcUid =>
      simp only [hpar] at h
      by_cases hne0 : srcUid = dstUid
      · rw [if_pos hne0] at h; cases h
      · rw [if_neg hne0] at h
        cases hdst : get_subcal_by_uid e.subcalendars dstUid with
        | none => rw [hdst] at h; cases h
        | some dst0 =>
          simp only [hdst] at h
          have hrec : record e (.moveItem uid srcUid dstUid)
              = .ok { e with history := { e.history with
                  current_tx := some ⟨tx.label, tx.ops ++ [.moveItem uid srcUid dstUid]⟩ } } := by
            simp [record, hcur]
          simp only [hrec] at h
          cases hm : moveItemModel uid srcUid dstUid e.subcalendars with
          | none => simp only [hm] at h; cases h
          | some m2 =>
            simp only [hm] at h
            cases h
            rcases get_item_by_uid_mem _ uid item hit with ⟨hituid, _⟩
            rcases get_subcal_by_uid_mem _ dstUid dst0 hdst with ⟨hdst0u, hdst0m⟩
            refine ⟨[.moveItem uid srcUid dstUid], rfl, ?_, ?_⟩
            · simp only [runOpList, Op.apply, hm]
            · simp only [List.reverse_cons, List.reverse_nil, List.nil_append, runOpList, Op.revert]
              have hm' := hm
              unfold moveItemModel at hm'
              cases hsrc : get_subcal_by_uid e.subcalendars srcUid with
              | none =>
                simp only [hit, hsrc, hdst] at hm'
                cases hm'
              | some src0 =>
                simp only [hit, hsrc, hdst] at hm'
                rcases get_subcal_by_uid_mem _ srcUid src0 hsrc with ⟨hsrc0u, hsrc0m⟩
                have hmemit : item ∈ src0.items :=
                  found_item_in_parent e.subcalendars uid srcUid item src0 hwf hit hpar hsrc
                rw [if_pos (any_of_mem_uid _ item uid hmemit hituid)] at hm'
                cases hm'
                have hdstne_src : ¬(dst0.uid = srcUid) := by
                  rw [hdst0u]; intro hco; exact hne0 hco.symm
                have hsrcne_dst : ¬(src0.uid = dstUid) := by
                  rw [hsrc0u]; exact hne0
                have hmem_dst1 : dst0 ∈ updateSubcalItems e.subcalendars srcUid
                    (fun l => sortItems (eraseItemUid l uid)) := by
                  unfold updateSubcalItems
                  exact List.mem_map.mpr ⟨dst0, hdst0m, by rw [if_neg hdstne_src]⟩
                have hmem_dst2 : ({ dst0 with items := sortItems (dst0.items ++ [{ item with parent_subcal := some dstUid }]) } : Subcalendar)
                    ∈ updateSubcalItems
                        (updateSubcalItems e.subcalendars srcUid (fun l => sortItems (eraseItemUid l uid)))
                        dstUid (fun l => sortItems (l ++ [{ item with parent_subcal := some dstUid }])) :=
                  updated_mem _ dstUid
                    (fun l => sortItems (l ++ [{ item with parent_subcal := some dstUid }]))
                    dst0 hmem_dst1 hdst0u
                have hmem_src1 : ({ src0 with items := sortItems (eraseItemUid src0.items uid) } : Subcalendar)
                    ∈ updateSubcalItems e.subcalendars srcUid (fun l => sortItems (eraseItemUid l uid)) :=
                  updated_mem _ srcUid (fun l => sortItems (eraseItemUid l uid)) src0 hsrc0m hsrc0u
                have hmem_src2 : ({ src0 with items := sortItems (eraseItemUid src0.items uid) } : Subcalendar)
                    ∈ updateSubcalItems
                        (updateSubcalItems e.subcalendars srcUid (fun l => sortItems (eraseItemUid l uid)))
                        dstUid (fun l => sortItems (l ++ [{ item with parent_subcal := some dstUid }])) := by
                  unfold updateSubcalItems
                  refine List.mem_map.mpr ⟨_, hmem_src1, ?_⟩
                  rw [if_neg hsrcne_dst]
                have hmem_item2 : ({ item with parent_subcal := some dstUid } : Item)
                    ∈ sortItems (dst0.items ++ [{ item with parent_subcal := some dstUid }]) :=
                  (sortItems_perm _).mem_iff.mpr (by simp)
                have hlook_it := get_item_by_uid_of_mem _ uid
                  { dst0 with items := sortItems (dst0.items ++ [{ item with parent_subcal := some dstUid }]) }
                  { item with parent_subcal := some dstUid }
                  (wfModel_spec _ hwf1).2.1 hmem_dst2 hmem_item2 hituid
                have hlook_dst2 := get_subcal_by_uid_of_mem _ dstUid
                  { dst0 with items := sortItems (dst0.items ++ [{ item with parent_subcal := some dstUid }]) }
                  (wfModel_spec _ hwf1).1 hmem_dst2 hdst0u
                have hlook_src2 := get_subcal_by_uid_of_mem _ srcUid
                  { src0 with items := sortItems (eraseItemUid src0.items uid) }
                  (wfModel_spec _ hwf1).1 hmem_src2 hsrc0u
                unfold moveItemModel
                simp only [hlook_it, hlook_dst2, hlook_src2]
                rw [if_pos (any_of_mem_uid _ _ uid hmem_item2 hituid)]
                have hpe : ({ { item with parent_subcal := some dstUid } with
                      parent_subcal := some srcUid } : Item) = item := by
                  cases item
                  simp only at hpar
                  simp [hpar]
                simp only [hpe]
                have hwfats := wf_at_subcal e.subcalendars hwf src0 hsrc0m
                have hrt := remove_roundtrip src0.items item hwfats.2.2 hwfats.1 hwfats.2.1 hmemit
                rw [hituid] at hrt
                have hwfatd := wf_at_subcal _ hwf1
                  { dst0 with items := sortItems (dst0.items ++ [{ item with parent_subcal := some dstUid }]) }
                  hmem_dst2
                have hrt2 := insert_roundtrip dst0.items { item with parent_subcal := some dstUid }
                  ((wfModel_spec _ hwf).2.2.2.1 dst0 hdst0m) hwfatd.1 hwfatd.2.1
                rw [show (({ item with parent_subcal := some dstUid } : Item)).uid = item.uid from rfl] at hrt2
                have hmodel : updateSubcalItems (updateSubcalItems
                      (updateSubcalItems
                        (updateSubcalItems e.subcalendars srcUid (fun l => sortItems (eraseItemUid l uid)))
                        dstUid (fun l => sortItems (l ++ [{ item with parent_subcal := some dstUid }])))
                      dstUid (fun l => sortItems (eraseItemUid l uid)))
                    srcUid (fun l => sortItems (l ++ [item])) = e.subcalendars := by
                  unfold updateSubcalItems
                  rw [List.map_map, List.map_map, List.map_map]
                  apply map_pointwise_id
                  intro sc hscmem
                  simp only [Function.comp]
                  by_cases hs : sc.uid = srcUid
                  · rw [mem_eq_of_fun_ne Subcalendar.uid e.subcalendars (wfModel_spec _ hwf).1
                      sc src0 hscmem hsrc0m (hs.trans hsrc0u.symm)]
                    rw [if_pos hsrc0u, if_neg hsrcne_dst, if_neg hsrcne_dst, if_pos hsrc0u]
                    simp only [hrt]
                  · by_cases hd : sc.uid = dstUid
                    · rw [mem_eq_of_fun_ne Subcalendar.uid e.subcalendars (wfModel_spec _ hwf).1
                        sc dst0 hscmem hdst0m (hd.trans hdst0u.symm)]
                      rw [if_neg hdstne_src, if_pos hdst0u, if_pos hdst0u, if_neg hdstne_src]
                      rw [← hituid]
                      simp only [hrt2]
                    · rw [if_neg hs, if_neg hd, if_neg hd, if_neg hs]
                rw [hmodel]

theorem spec_txCall (c : TxCall) (e e1 : Editor) (tx : Transaction)
    (hcur : e.history.current_tx = some tx)
    (hwf : wfModel e.subcalendars = true) (hwf1 : wfModel e1.subcalendars = true)
    (h : runTxCall c e = .ok e1) :
    ∃ ops_c, CallSpec e e1 tx ops_c := by
  cases c with
  | setItemAttr uid attr v => exact spec_setItemAttr e e1 tx uid attr v hcur hwf hwf1 h
  | insertItem scUid item => exact spec_insertItem e e1 tx scUid item hcur hwf hwf1 h
  | removeItem uid => exact spec_removeItem e e1 tx uid hcur hwf h
  | moveItem uid dstUid => exact spec_moveItem e e1 tx uid dstUid hcur hwf hwf1 h
  | setSubcalAttr uid attr v => exact spec_setSubcalAttr e e1 tx uid attr v hcur hwf h
  | insertSubcal sc => exact spec_insertSubcal e e1 tx sc hcur h
  | removeSubcal uid => exact spec_removeSubcal e e1 tx uid hcur h

theorem goodRun_wf_head (cs : List TxCall) (e e' : Editor) (h : goodRun cs e = some e') :
    wfModel e.subcalendars = true := by
  by_cases hw : wfModel e.subcalendars = true
  · exact hw
  · cases cs with
    | nil => unfold goodRun at h; rw [if_neg hw] at h; cases h
    | cons c cs => unfold goodRun at h; rw [if_neg hw] at h; cases h

theorem goodRun_frame (cs : List TxCall) (e e' : Editor) (h : goodRun cs e = some e') :
    e'.history.undo_stack = e.history.undo_stack
    ∧ e'.history.redo_stack = e.history.redo_stack
    ∧ e'.registers = e.registers
    ∧ e'.max_history = e.max_history := by
  induction cs generalizing e with
  | nil =>
    unfold goodRun at h
    by_cases hw : wfModel e.subcalendars = true
    · rw [if_pos hw] at h; cases h; exact ⟨rfl, rfl, rfl, rfl⟩
    · rw [if_neg hw] at h; cases h
  | cons c cs ih =>
    unfold goodRun at h
    by_cases hw : wfModel e.subcalendars = true
    · rw [if_pos hw] at h
      cases hc : runTxCall c e with
      | exn m s => simp only [hc] at h; cases h
      | ok e1 =>
        simp only [hc] at h
        rcases ih e1 h with ⟨h1, h2, h3, h4⟩
        rcases runTxCall_frame c e e1 hc with ⟨g1, g2, g3, g4⟩
        exact ⟨h1.trans g1, h2.trans g2, h3.trans g3, h4.trans g4⟩
    · rw [if_neg hw] at h; cases h

theorem runOpList_append (step : Op → Model → Option Model) (l1 l2 : List Op) (m m1 m2 : Model)
    (h1 : runOpList step l1 m = .ok m1) (h2 : runOpList step l2 m1 = .ok m2) :
    runOpList step (l1 ++ l2) m = .ok m2 := by
  induction l1 generalizing m with
  | nil =>
    unfold runOpList at h1
    cases h1
    simpa using h2
  | cons op ops ih =>
    simp only [List.cons_append, runOpList] at h1 ⊢
    cases hs : step op m with
    | none => simp only [hs] at h1; cases h1
    | some mNext =>
      simp only [hs] at h1 ⊢
      exact ih mNext h1

theorem goodRun_spec (cs : List TxCall) (e e' : Editor) (tx : Transaction)
    (hcur : e.history.current_tx = some tx)
    (hg : goodRun cs e = some e') :
    ∃ ops_c, CallSpec e e' tx ops_c := by
  induction cs generalizing e tx with
  | nil =>
    unfold goodRun at hg
    by_cases hw : wfModel e.subcalendars = true
    · rw [if_pos hw] at hg; cases hg; exact ⟨[], callSpec_nil _ tx hcur⟩
    · rw [if_neg hw] at hg; cases hg
  | cons c cs ih =>
    unfold goodRun at hg
    by_cases hw : wfModel e.subcalendars = true
    · rw [if_pos hw] at hg
      cases hc : runTxCall c e with
      | exn m s => simp only [hc] at hg; cases hg
      | ok e1 =>
        simp only [hc] at hg
        have hwf1 : wfModel e1.subcalendars = true := goodRun_wf_head cs e1 e' hg
        rcases spec_txCall c e e1 tx hcur hw hwf1 hc with ⟨ops1, hcur1, happ1, hrev1⟩
        rcases ih e1 ⟨tx.label, tx.ops ++ ops1⟩ hcur1 hg with ⟨ops2, hcur2, happ2, hrev2⟩
        refine ⟨ops1 ++ ops2, ?_, ?_, ?_⟩
        · rw [hcur2]; simp [List.append_assoc]
        · exact runOpList_append _ _ _ _ _ _ happ1 happ2
        · rw [List.reverse_append]
          exact runOpList_append _ _ _ _ _ _ hrev2 hrev1
    · rw [if_neg hw] at hg; cases hg

theorem commit_concat (e2 : Editor) (tx : Transaction)
    (hcur : e2.history.current_tx = some tx) (hops : tx.ops ≠ [])
    (hmh : 0 < e2.max_history) :
    ∃ w, commit_transaction e2 = { e2 with history := ⟨w ++ [tx], [], none⟩ } := by
  have hstep : commit_transaction e2
      = { e2 with history := ⟨if e2.max_history < (e2.history.undo_stack ++ [tx]).length
          then (e2.history.undo_stack ++ [tx]).drop 1 else e2.history.undo_stack ++ [tx],
          [], none⟩ } := by
    unfold commit_transaction
    simp only [hcur]
    rw [if_neg hops]
  by_cases hlen : e2.max_history < (e2.history.undo_stack ++ [tx]).length
  · cases hs : e2.history.undo_stack with
    | nil =>
      exfalso
      rw [hs] at hlen
      simp at hlen
      omega
    | cons a s' =>
      refine ⟨s', ?_⟩
      rw [hstep, if_pos hlen, hs]
      rfl
  · refine ⟨e2.history.undo_stack, ?_⟩
    rw [hstep, if_neg hlen]

/-- C1 (amended): undo/redo round trip.  For a transaction built from a
well-formed state by any sequence of transaction-layer calls that keeps
the entity model well formed (distinct uids, consistent `parent_subcal`
links, items sorted with pairwise-distinct sort keys in each
subcalendar) before every call and at the end, and that records at least
one op: committing it and calling `tx_undo` reverts the ops in reverse
order and restores the entity model exactly to its state at
`begin_transaction`, and `tx_redo` immediately after restores exactly
the post-commit editor state.  (Without the distinct-sort-key condition
the round trip can reorder equal-key items; see the counterexample.) -/
theorem C1_undo_redo_round_trip_amended
    (e0 : Editor) (label : String) (cs : List TxCall) (e2 : Editor)
    (hcur0 : e0.history.current_tx = none)
    (hmh : 0 < e0.max_history)
    (hg : goodRun cs { e0 with history := { e0.history with current_tx := some ⟨label, []⟩ } } = some e2)
    (hne : e2.history.current_tx ≠ some ⟨label, []⟩) :
    begin_transaction e0 label
      = .ok { e0 with history := { e0.history with current_tx := some ⟨label, []⟩ } }
    ∧ ∃ e4, tx_undo (commit_transaction e2) = .ok e4
        ∧ e4.subcalendars = e0.subcalendars
        ∧ tx_redo e4 = .ok (commit_transaction e2) := by
  refine ⟨by simp [begin_transaction, hcur0], ?_⟩
  rcases goodRun_spec cs _ e2 ⟨label, []⟩ rfl hg with ⟨ops, hcur2, happ, hrev⟩
  have happ' : runOpList Op.apply ops e0.subcalendars = Except.ok e2.subcalendars := happ
  have hrev' : runOpList Op.revert ops.reverse e2.subcalendars = Except.ok e0.subcalendars := hrev
  have hcur2' : e2.history.current_tx = some ⟨label, ops⟩ := by
    rw [hcur2]; simp
  have hopsne : (⟨label, ops⟩ : Transaction).ops ≠ [] := fun hnil =>
    hne (by rw [hcur2', show ops = [] from hnil])
  have hmh2 : 0 < e2.max_history := by
    rcases goodRun_frame cs _ e2 hg with ⟨_, _, _, h4⟩
    rw [h4]
    exact hmh
  rcases commit_concat e2 ⟨label, ops⟩ hcur2' hopsne hmh2 with ⟨w, hc3⟩
  refine ⟨{ e2 with subcalendars := e0.subcalendars, history := ⟨w, [(⟨label, ops⟩ : Transaction)], none⟩ }, ?_, rfl, ?_⟩
  · rw [hc3]
    unfold tx_undo
    simp only [List.getLast?_concat, Transaction.revertModel, hrev',
      List.dropLast_concat, List.nil_append]
  · rw [hc3]
    unfold tx_redo
    simp only [List.getLast?_singleton, Transaction.applyModel, happ',
      List.dropLast_single]

theorem C1_undo_redo_round_trip_amended_witness :
    begin_transaction c1Base "w"
      = .ok { c1Base with history := { c1Base.history with current_tx := some ⟨"w", []⟩ } }
    ∧ ∃ e4, tx_undo (commit_transaction c1Mid) = .ok e4
        ∧ e4.subcalendars = c1Base.subcalendars
        ∧ tx_redo e4 = .ok (commit_transaction c1Mid) :=
  C1_undo_redo_round_trip_amended c1Base "w" [.insertItem "c" c1Item] c1Mid
    (by decide) (by decide) (by decide) (by decide)

theorem C1_undo_redo_counterexample :
    runTxCalls [.removeItem "x"] c1xBegun = .ok c1xMid
    ∧ tx_undo (commit_transaction c1xMid) = .ok c1xUndone
    ∧ c1xUndone.subcalendars ≠ c1xBegun.subcalendars := by decide
